import Mathlib

/-
  Verification of the tyme repository (src/tyme/tyme.py): a plain-text
  todo/time-tracking ledger.  The definitions below are a shallow embedding of
  the Python source: `DateTime` models `datetime.datetime` values normalized to
  the sentinel year 2000 (which is a leap year), ordered dictionaries are
  association lists, exceptions become `Except`, and mutating methods become
  state-passing functions returning the (possibly partially mutated) sheet
  together with the raised error, mirroring the order of checks and mutations
  in the source.
-/

namespace Tyme

/-- Models a Python `datetime` in the sentinel year 2000 (see `now()` and
`parse_time` in the source, which `.replace(year=2000)`).  Python datetimes are
always field-valid; validity is tracked by `DateTime.Valid` below. -/
structure DateTime where
  month : Nat
  day : Nat
  hour : Nat
  minute : Nat
  second : Nat
deriving DecidableEq, Repr

/-- Days in each month of the year 2000 (a leap year, so February has 29). -/
def daysInMonth : Nat → Nat
  | 1 => 31 | 2 => 29 | 3 => 31 | 4 => 30 | 5 => 31 | 6 => 30
  | 7 => 31 | 8 => 31 | 9 => 30 | 10 => 31 | 11 => 30 | 12 => 31
  | _ => 0

/-- Days of year 2000 that precede the first day of the given month. -/
def daysBefore : Nat → Nat
  | 1 => 0 | 2 => 31 | 3 => 60 | 4 => 91 | 5 => 121 | 6 => 152
  | 7 => 182 | 8 => 213 | 9 => 244 | 10 => 274 | 11 => 305 | 12 => 335
  | _ => 0

/-- Seconds since 2000-01-01 00:00:00; matches `datetime` subtraction for
valid dates in the sentinel year. -/
def DateTime.toSecs (t : DateTime) : Nat :=
  ((daysBefore t.month + (t.day - 1)) * 24 + t.hour) * 3600 + t.minute * 60 + t.second

/-- Chronological order on datetimes (Python `<` on `datetime`; the two agree
on all field-valid datetimes, the only ones Python can construct). -/
def DateTime.lt (a b : DateTime) : Bool := a.toSecs < b.toSecs

/-- Field validity of a Python datetime of the sentinel year, at second
granularity zero (all datetimes stored in a parsed sheet have second = 0). -/
def DateTime.Valid (t : DateTime) : Prop :=
  1 ≤ t.month ∧ t.month ≤ 12 ∧ 1 ≤ t.day ∧ t.day ≤ daysInMonth t.month ∧
    t.hour ≤ 23 ∧ t.minute ≤ 59 ∧ t.second = 0

instance (t : DateTime) : Decidable t.Valid := by unfold DateTime.Valid; infer_instance

/-- The exceptions of the source: `TymeError`, its subclass `ParseError`, and
the Python built-ins that can escape (`ValueError` from `strptime`,
`StopIteration`/`RuntimeError` from a `next()` on an exhausted file). -/
inductive Err where
  | tymeError (msg : String)
  | parseError (msg : String)
  | valueError
  | stopIter
deriving DecidableEq, Repr

/-- `class Task`: name, tags, optional deadline. -/
structure Task where
  name : String
  tags : List String
  deadline : Option DateTime
deriving DecidableEq, Repr

/-- `class Entry`: a time-log interval.  The field `stop` models the Python
attribute `end` (a Lean keyword); `none` means the entry is still open. -/
structure Entry where
  task : String
  start : DateTime
  stop : Option DateTime
deriving DecidableEq, Repr

/-- `Entry.__init__`: raises `TymeError` when a non-null end precedes start. -/
def Entry.make (task : String) (start : DateTime) (stop : Option DateTime) :
    Except Err Entry :=
  match stop with
  | some e =>
      if DateTime.lt e start then .error (.tymeError "Entry cannot end before it begins!")
      else .ok ⟨task, start, some e⟩
  | none => .ok ⟨task, start, none⟩

/-- `class TymeSheet`: the three ordered collections.  `todo` and `done` model
`OrderedDict` as insertion-ordered association lists. -/
structure TymeSheet where
  todo : List (String × Task)
  time : List Entry
  done : List (String × Task)
deriving DecidableEq, Repr

/-- `name in d` for an OrderedDict. -/
def odMem (k : String) (d : List (String × Task)) : Bool := d.any (fun p => p.1 == k)

/-- `d[k] = v` for an OrderedDict: updates in place if the key exists,
otherwise appends (insertion order preserved). -/
def odInsert (d : List (String × Task)) (k : String) (v : Task) : List (String × Task) :=
  if d.any (fun p => p.1 == k) then d.map (fun p => if p.1 == k then (k, v) else p)
  else d ++ [(k, v)]

/-- `d[k]` lookup. -/
def odGet (k : String) (d : List (String × Task)) : Option Task :=
  (d.find? (fun p => p.1 == k)).map Prod.snd

/-- `d.pop(k)`: the dictionary with key `k` removed. -/
def odPop (k : String) (d : List (String × Task)) : List (String × Task) :=
  d.filter (fun p => !(p.1 == k))

/-- `TymeSheet.current_entry`: the last time entry, when it is open. -/
def TymeSheet.current_entry (s : TymeSheet) : Option Entry :=
  match s.time.getLast? with
  | some e => if e.stop = none then some e else none
  | none => none

/-- `TymeSheet.add_task(name, tags, deadline)`.  The returned sheet is the
receiver's state when the call finishes, raised error included (so a raise
before any mutation returns the sheet unchanged). -/
def TymeSheet.add_task (s : TymeSheet) (name : String) (tags : List String)
    (deadline : Option DateTime) : Except Err Unit × TymeSheet :=
  if odMem name s.todo then (.error (.tymeError "That task already exists."), s)
  else (.ok (), { s with todo := odInsert s.todo name ⟨name, tags, deadline⟩ })

/-- `TymeSheet.clock_out(time)`: raises when not clocked in; otherwise assigns
`self.current_entry.end = time or now()` directly (no `Entry.__init__` check)
and returns the task name.  `now` models the ambient clock. -/
def TymeSheet.clock_out (s : TymeSheet) (time : Option DateTime) (now : DateTime) :
    Except Err String × TymeSheet :=
  match s.current_entry with
  | none => (.error (.tymeError "Not clocked in."), s)
  | some cur =>
      let t := time.getD now
      (.ok cur.task, { s with time := s.time.dropLast ++ [{ cur with stop := some t }] })

/-- `TymeSheet.clock_in(task, time)`: resolves the time once, clocks out an
open entry at it, then appends a fresh open entry built by `Entry.__init__`. -/
def TymeSheet.clock_in (s : TymeSheet) (task : String) (time : Option DateTime)
    (now : DateTime) : Except Err Unit × TymeSheet :=
  let t := time.getD now
  let step : Except Err Unit × TymeSheet :=
    if s.current_entry.isSome then
      match s.clock_out (some t) now with
      | (.error e, s') => (.error e, s')
      | (.ok _, s') => (.ok (), s')
    else (.ok (), s)
  match step with
  | (.error e, s') => (.error e, s')
  | (.ok _, s') =>
      match Entry.make task t none with
      | .error e => (.error e, s')
      | .ok entry => (.ok (), { s' with time := s'.time ++ [entry] })

/-- `TymeSheet.complete_task(task_name, time)`: pops from `todo` (raising
`TymeError` when absent), stamps the deadline, inserts into `done`, and clocks
out the open entry when it belongs to this task. -/
def TymeSheet.complete_task (s : TymeSheet) (task_name : String)
    (time : Option DateTime) (now : DateTime) : Except Err Unit × TymeSheet :=
  match odGet task_name s.todo with
  | none => (.error (.tymeError "No such task."), s)
  | some task =>
      let s₁ : TymeSheet := { s with todo := odPop task_name s.todo }
      let t := time.getD now
      let task := { task with deadline := some t }
      let s₂ : TymeSheet := { s₁ with done := odInsert s₁.done task_name task }
      match s₂.current_entry with
      | some cur =>
          if cur.task == task_name then
            match s₂.clock_out (some t) now with
            | (.error e, s₃) => (.error e, s₃)
            | (.ok _, s₃) => (.ok (), s₃)
          else (.ok (), s₂)
      | none => (.ok (), s₂)

/-- `TymeSheet.tag_filter(*tags)`: identity on no tags, otherwise a new sheet
keeping tasks whose tag set contains all filter tags, and entries whose task
name survives in either kept collection (`ChainMap(todo, done)`). -/
def TymeSheet.tag_filter (s : TymeSheet) (tags : List String) : TymeSheet :=
  if tags = [] then s
  else
    let todo := s.todo.filter (fun p => tags.all (fun x => p.2.tags.contains x))
    let done := s.done.filter (fun p => tags.all (fun x => p.2.tags.contains x))
    let time := s.time.filter (fun e => odMem e.task todo || odMem e.task done)
    ⟨todo, time, done⟩

/-- `Entry.time`: duration in seconds; an open entry is measured against `now`. -/
def Entry.timeSecs (e : Entry) (now : DateTime) : Int :=
  match e.stop with
  | none => (now.toSecs : Int) - (e.start.toSecs : Int)
  | some en => (en.toSecs : Int) - (e.start.toSecs : Int)

/-- `Task.entries`: the time-log entries referencing this task by name. -/
def Task.entries (t : Task) (s : TymeSheet) : List Entry :=
  s.time.filter (fun e => e.task == t.name)

/-- `Task.time`: total accumulated seconds over the sheet's time log. -/
def Task.timeSecs (t : Task) (s : TymeSheet) (now : DateTime) : Int :=
  (t.entries s).foldl (fun acc e => acc + e.timeSecs now) 0

/-! ### Rendering (`__str__`, `to_string`, the time formatters) -/

/-- The ASCII digit character of `n < 10`. -/
def digitChar (n : Nat) : Char := Char.ofNat (48 + n)

/-- Zero-padded two-digit rendering, as `strftime` does for the bounded
datetime fields (month, day, hour, minute are all below 100). -/
def pad2 (n : Nat) : String := String.mk [digitChar (n / 10 % 10), digitChar (n % 10)]

/-- Python format spec 02.0f applied to an integral float: two digits
zero-padded, wider numbers and negatives printed as-is. -/
def py02f (n : Int) : String :=
  if 0 ≤ n ∧ n < 100 then pad2 n.toNat else toString n

/-- `fmt_delta`: hours unbounded, floor-truncated to the minute.  Python
floor-division and nonnegative modulus. -/
def fmt_delta (secs : Int) : String :=
  "(" ++ py02f (Int.fdiv secs 3600) ++ ":" ++ py02f (Int.fmod (Int.fdiv secs 60) 60) ++ ")"

/-- `fmt_time` / `TIME_FMT`: month-day hour:minute, zero padded. -/
def fmt_time (t : DateTime) : String :=
  pad2 t.month ++ "-" ++ pad2 t.day ++ " " ++ pad2 t.hour ++ ":" ++ pad2 t.minute

/-- Python `sep.join(xs)`. -/
def pyJoin (sep : String) : List String → String
  | [] => ""
  | [x] => x
  | x :: xs => x ++ sep ++ pyJoin sep xs

/-- Python format spec of a bare width: left-justify, pad with spaces. -/
def padRight (w : Nat) (s : String) : String :=
  s ++ String.mk (List.replicate (w - s.length) ' ')

/-- Python centering format spec: extra space goes to the right. -/
def center (w : Nat) (s : String) : String :=
  let tot := w - s.length
  String.mk (List.replicate (tot / 2) ' ') ++ s ++ String.mk (List.replicate (tot - tot / 2) ' ')

/-- Python `str.isspace` characters relevant to `\s` and `strip()`. -/
def isPySpace (c : Char) : Bool :=
  c = ' ' || c = '\t' || c = '\n' || c = '\r' || c = '\x0b' || c = '\x0c'

/-- Right strip. -/
def stripRight (cs : List Char) : List Char := (cs.reverse.dropWhile isPySpace).reverse

/-- Python `str.strip()` on a character list. -/
def stripChars (cs : List Char) : List Char := stripRight (cs.dropWhile isPySpace)

/-- Python `str.strip()`. -/
def pyStrip (s : String) : String := String.mk (stripChars s.data)

/-- `Task.to_string`: duration, name padded to 20 columns, deadline padded to
11, comma-joined tags; joined by three spaces and stripped. -/
def Task.to_string (t : Task) (s : TymeSheet) (now : DateTime) : String :=
  pyStrip (pyJoin "   "
    [fmt_delta (t.timeSecs s now),
     padRight 20 t.name,
     padRight 11 (match t.deadline with | some d => fmt_time d | none => ""),
     pyJoin ", " t.tags])

/-- `Entry.__str__`: duration, task padded to 20 columns, start, end or an
open-entry marker; joined by three spaces (not stripped). -/
def Entry.toLine (e : Entry) (now : DateTime) : String :=
  pyJoin "   "
    [fmt_delta (e.timeSecs now),
     padRight 20 e.task,
     fmt_time e.start,
     match e.stop with | none => "--" | some en => fmt_time en]

/-- One section of `TymeSheet.__str__`: centered title, 70 dashes, the body
lines, a blank line. -/
def sectionLines (title : String) (body : List String) : List String :=
  center 70 title :: String.mk (List.replicate 70 '-') :: (body ++ [""])

/-- `TymeSheet.__str__`. -/
def TymeSheet.toStr (s : TymeSheet) (now : DateTime) : String :=
  pyJoin "\n"
    (sectionLines "Todo" (s.todo.map (fun p => p.2.to_string s now)) ++
     sectionLines "Time" (s.time.map (fun e => e.toLine now)) ++
     sectionLines "Done" (s.done.map (fun p => p.2.to_string s now)))

/-! ### Parsing: the line regexes

The source matches lines with `re.match` against verbose-mode patterns built
from the `REGEX` table.  The matchers below are those regexes compiled by
hand; each is deterministic except for the tags group, where the single
productive backtracking case (a one-character tag class match borrowing one
space from the greedy whitespace run) is reproduced explicitly.  The word
class models `\w` on its ASCII fragment (letters, digits, underscore). -/

/-- The `\w` class (ASCII fragment). -/
def isWordChar (c : Char) : Bool := c.isAlphanum || c = '_'

/-- The `\d` class. -/
def isDigitChar (c : Char) : Bool := c.isDigit

/-- The tags class, bracket word-space-comma in the `REGEX` table. -/
def isTagChar (c : Char) : Bool := isWordChar c || c = ' ' || c = ','

/-- Greedy maximal match of the task-name pattern from the `REGEX` table:
word-character runs separated by single spaces, ending on a word character
(this regex never backtracks productively in either line pattern; two
consecutive spaces or any other character end the match). -/
def nameScan : List Char → List Char
  | [] => []
  | c :: cs =>
    if isWordChar c then c :: nameScan cs
    else if c = ' ' then
      match cs with
      | d :: _ => if isWordChar d then c :: nameScan cs else []
      | [] => []
    else []

/-- The captured task-name group; the pattern requires at least two
characters. -/
def matchName (cs : List Char) : Option (List Char × List Char) :=
  let p := nameScan cs
  if 2 ≤ p.length then some (p, cs.drop p.length) else none

/-- Length of the leading `\s` run. -/
def wsCount (cs : List Char) : Nat := (cs.takeWhile isPySpace).length

/-- Leading `\d+` run. -/
def digitsScan (cs : List Char) : List Char := cs.takeWhile isDigitChar

/-- The date token pattern from the `REGEX` table: digits, dash, digits,
single space, two digits, colon, two digits.  Returns the matched token and
the remainder. -/
def matchDate (cs : List Char) : Option (List Char × List Char) :=
  let d1 := digitsScan cs
  if d1.isEmpty then none else
  match cs.drop d1.length with
  | '-' :: r1 =>
    let d2 := digitsScan r1
    if d2.isEmpty then none else
    (match r1.drop d2.length with
     | ' ' :: h1 :: h2 :: ':' :: m1 :: m2 :: r2 =>
        if isDigitChar h1 && isDigitChar h2 && isDigitChar m1 && isDigitChar m2 then
          some (d1 ++ '-' :: (d2 ++ ' ' :: h1 :: h2 :: ':' :: m1 :: m2 :: []), r2)
        else none
     | _ => none)
  | _ => none

/-- The optional deadline group of `Task.regex`: at least two whitespace
characters then a date token; the capture includes the whitespace.  The date
starts with a digit, so the greedy whitespace run cannot be backtracked. -/
def matchWsDate (cs : List Char) : Option (List Char × List Char) :=
  let k := wsCount cs
  if k < 2 then none else
  match matchDate (cs.drop k) with
  | some (d, r) => some (cs.take k ++ d, r)
  | none => none

/-- Match of the tags pattern at a position: the maximal tag-class run
truncated after its last word character (the pattern must end on `\w`). -/
def tagsCore (cs : List Char) : List Char :=
  ((cs.takeWhile isTagChar).reverse.dropWhile (fun c => !(isWordChar c))).reverse

/-- The optional tags group of `Task.regex`: two-or-more whitespace then the
tags pattern, which needs at least two characters.  When the tag text after
the whitespace run is a single word character, the regex engine backtracks
the greedy whitespace run by one and the class consumes that space — possible
only when the run is at least three long and its last character is a plain
space.  The returned capture includes the consumed whitespace. -/
def matchWsTags (cs : List Char) : Option (List Char) :=
  let k := wsCount cs
  let core := tagsCore (cs.drop k)
  if k < 2 then none
  else if 2 ≤ core.length then some (cs.take k ++ core)
  else if core.length = 1 && 3 ≤ k && ((cs.take k).getLast? == some ' ') then
    some (cs.take k ++ core)
  else none

/-- The optional non-capturing duration prefix of both line patterns. -/
def totalTimeScan (cs : List Char) : Option (List Char) :=
  match cs with
  | '(' :: a :: b :: ':' :: c :: d :: ')' :: r =>
      if isDigitChar a && isDigitChar b && isDigitChar c && isDigitChar d then some r
      else none
  | _ => none

/-- Python `s.split` on a comma-space separator (leftmost-first). -/
def splitCommaSpace : List Char → List (List Char)
  | [] => [[]]
  | ',' :: ' ' :: r => [] :: splitCommaSpace r
  | c :: r =>
    match splitCommaSpace r with
    | l :: ls => (c :: l) :: ls
    | [] => [[c]]

/-- `strptime` reading of one or two digits (greedy). -/
def read2 : List Char → Option (Nat × List Char)
  | [] => none
  | [a] => if isDigitChar a then some (a.toNat - 48, []) else none
  | a :: b :: r =>
      if isDigitChar a then
        if isDigitChar b then some ((a.toNat - 48) * 10 + (b.toNat - 48), r)
        else some (a.toNat - 48, b :: r)
      else none

/-- `datetime.strptime(string, TIME_FMT)` followed by `replace(year=2000)`:
month-day hour:minute with field validation against the sentinel year. -/
def parseFullTime (cs : List Char) : Option DateTime :=
  match read2 cs with
  | none => none
  | some (m, r1) =>
    match r1 with
    | '-' :: r2 =>
      match read2 r2 with
      | none => none
      | some (d, r3) =>
        match r3 with
        | ' ' :: r4 =>
          match read2 r4 with
          | none => none
          | some (h, r5) =>
            match r5 with
            | ':' :: r6 =>
              match read2 r6 with
              | none => none
              | some (mi, r7) =>
                if r7 = [] ∧ 1 ≤ m ∧ m ≤ 12 ∧ 1 ≤ d ∧ d ≤ daysInMonth m ∧ h ≤ 23 ∧ mi ≤ 59
                then some ⟨m, d, h, mi, 0⟩ else none
            | _ => none
        | _ => none
    | _ => none

/-- The bare hour:minute fallback of `parse_time`, completed with the current
month and day. -/
def parseBareTime (cs : List Char) (now : DateTime) : Option DateTime :=
  match read2 cs with
  | none => none
  | some (h, r1) =>
    match r1 with
    | ':' :: r2 =>
      match read2 r2 with
      | none => none
      | some (mi, r3) =>
        if r3 = [] ∧ h ≤ 23 ∧ mi ≤ 59 then some ⟨now.month, now.day, h, mi, 0⟩ else none
    | _ => none

/-- `parse_time`: strip, try the full form, fall back to bare hour:minute;
any other shape raises `ValueError` (uncaught by the source). -/
def parse_time (cs : List Char) (now : DateTime) : Except Err DateTime :=
  let cs := stripChars cs
  match parseFullTime cs with
  | some t => .ok t
  | none =>
    match parseBareTime cs now with
    | some t => .ok t
    | none => .error .valueError

/-- `Task.from_string`: match `Task.regex`, split the tags on comma-space,
parse the deadline. -/
def Task.from_string (line : List Char) (now : DateTime) : Except Err Task :=
  let cs := match totalTimeScan line with | some r => r | none => line
  let cs := cs.drop (wsCount cs)
  match matchName cs with
  | none => .error (.parseError ("Bad Task: " ++ String.mk line))
  | some (nm, rest) =>
      let dlRest :=
        match matchWsDate rest with
        | some (d, r) => (some d, r)
        | none => (none, rest)
      let tags :=
        match matchWsTags dlRest.2 with
        | some t => (splitCommaSpace (stripChars t)).map String.mk
        | none => []
      match dlRest.1 with
      | some d =>
          match parse_time d now with
          | .ok dt => .ok ⟨String.mk nm, tags, some dt⟩
          | .error e => .error e
      | none => .ok ⟨String.mk nm, tags, none⟩

/-- `Entry.from_string`: match `Entry.regex` (name, start date, end date or
the open marker), then construct through `Entry.__init__`. -/
def Entry.from_string (line : List Char) (now : DateTime) : Except Err Entry :=
  let failMsg : Err := .parseError ("Cannot parse entry:\n" ++ String.mk line)
  let cs := match totalTimeScan line with | some r => r | none => line
  let cs := cs.drop (wsCount cs)
  match matchName cs with
  | none => .error failMsg
  | some (nm, rest) =>
      let k := wsCount rest
      if k < 2 then .error failMsg else
      match matchDate (rest.drop k) with
      | none => .error failMsg
      | some (st, r2) =>
          let k2 := wsCount r2
          if k2 < 2 then .error failMsg else
          let r3 := r2.drop k2
          -- the end group: the alternation tries the two-dash open marker first
          let stopGroup : Option (Option (List Char)) :=
            if r3.take 2 = ['-', '-'] then some none
            else (matchDate r3).map (fun p => some p.1)
          match stopGroup with
          | none => .error failMsg
          | some endGrp =>
            match parse_time st now with
            | .error e => .error e
            | .ok start =>
              match endGrp with
              | none => Entry.make (String.mk nm) start none
              | some en =>
                match parse_time en now with
                | .error e => .error e
                | .ok endT => Entry.make (String.mk nm) start (some endT)

/-! ### Parsing: the document codec (`from_file`) -/

/-- Iterating a Python file object: lines keep their trailing newline. -/
def pythonLines : List Char → List (List Char)
  | [] => []
  | c :: cs =>
    if c = '\n' then ['\n'] :: pythonLines cs
    else
      match pythonLines cs with
      | [] => [[c]]
      | l :: ls => (c :: l) :: ls

/-- The dashed-rule pattern: at least ten dashes. -/
def dashesLine (cs : List Char) : Bool := 10 ≤ (cs.takeWhile (fun c => c = '-')).length

/-- A section-header pattern: at least ten spaces then the break word. -/
def breakHeader (word : String) (cs : List Char) : Bool :=
  let k := (cs.takeWhile (fun c => c = ' ')).length
  10 ≤ k && word.data.isPrefixOf (cs.drop k)

/-- The `parse` generator of `from_file`: yield parsed records until the
break header (whose following line must be a dashed rule), failing when a
required section header never appears.  A `next()` past the end of input
inside the generator surfaces as a runtime error (modelled by `stopIter`).
The done section is called with Python `None` as break word, which the
source interpolates into the pattern as the literal word None. -/
def parseSection {α : Type} (f : List Char → Except Err α) (word : String) (must : Bool) :
    List (List Char) → Except Err (List α × List (List Char))
  | [] =>
      if must then .error (.parseError ("Missing section: " ++ word)) else .ok ([], [])
  | l :: ls =>
      if breakHeader word l then
        match ls with
        | [] => .error .stopIter
        | d :: ls' =>
            if dashesLine d then .ok ([], ls')
            else .error (.parseError ("No line: " ++ String.mk d))
      else
        match f l with
        | .error e => .error e
        | .ok a =>
          match parseSection f word must ls with
          | .error e => .error e
          | .ok (as, r) => .ok (a :: as, r)

/-- `OrderedDict((t.name, t) for t in tasks)`. -/
def odFromTasks (ts : List Task) : List (String × Task) :=
  ts.foldl (fun d t => odInsert d t.name t) []

/-- `TymeSheet._validate`: every non-last time entry must be closed. -/
def TymeSheet._validate (s : TymeSheet) : Except Err Unit :=
  if s.time.dropLast.all (fun e => e.stop.isSome) then .ok ()
  else .error (.parseError "Unfinished nonfinal entry")

/-- The section-splitting part of `TymeSheet.from_file`: skip short lines,
check the Todo header and rule, read the three sections in order, rebuild
the collections. -/
def parseStructure (doc : String) (now : DateTime) : Except Err TymeSheet :=
  let lines := (pythonLines doc.data).filter (fun l => 2 < l.length)
  match lines with
  | [] => .error .stopIter
  | l1 :: rest1 =>
    if !(breakHeader "Todo" l1) then .error (.parseError ("No Todo: " ++ String.mk l1)) else
    match rest1 with
    | [] => .error .stopIter
    | l2 :: rest2 =>
      if !(dashesLine l2) then .error (.parseError ("No Todo line: " ++ String.mk l2)) else
      match parseSection (fun l => Task.from_string l now) "Time" true rest2 with
      | .error e => .error e
      | .ok (todoTasks, r1) =>
        match parseSection (fun l => Entry.from_string l now) "Done" true r1 with
        | .error e => .error e
        | .ok (entries, r2) =>
          match parseSection (fun l => Task.from_string l now) "None" false r2 with
          | .error e => .error e
          | .ok (doneTasks, _) =>
            .ok ⟨odFromTasks todoTasks, entries, odFromTasks doneTasks⟩

/-- `TymeSheet.from_file` on a document string: parse the structure, then run
global validation on the constructed sheet. -/
def from_file (doc : String) (now : DateTime) : Except Err TymeSheet :=
  match parseStructure doc now with
  | .error e => .error e
  | .ok sheet =>
    match sheet._validate with
    | .error e => .error e
    | .ok _ => .ok sheet

/-! ### Wellformedness predicates for the round-trip statement -/

/-- A closed entry does not end before it starts (the Entry invariant). -/
def endGeStart (e : Entry) : Bool :=
  match e.stop with
  | some d => !(DateTime.lt d e.start)
  | none => true

/-- The global invariants of the data model as the round-trip claim assumes
them: at most one open entry and it is the last element of `time`; every
non-null end is at or after its start; each task name in only one of the two
task collections. -/
def claimInvariants (s : TymeSheet) : Prop :=
  (∀ e ∈ s.time.dropLast, e.stop ≠ none) ∧
  (∀ e ∈ s.time, endGeStart e = true) ∧
  (∀ p ∈ s.todo, odMem p.1 s.done = false)

instance (s : TymeSheet) : Decidable (claimInvariants s) := by
  unfold claimInvariants; infer_instance

/-- Structure of the task-name pattern after its first character: word
characters, where a space must be followed by a word character. -/
def goodNameCore : List Char → Bool
  | [] => false
  | [c] => isWordChar c
  | c :: d :: rest =>
      if isWordChar c then goodNameCore (d :: rest)
      else c = ' ' && isWordChar d && goodNameCore (d :: rest)

/-- A string that the task-name pattern matches exactly: at least two
characters, word-character runs separated by single spaces. -/
def goodName (s : String) : Bool :=
  (match s.data with | c :: _ => isWordChar c | [] => false) &&
  goodNameCore s.data && decide (2 ≤ s.data.length)

/-- A tag that survives the render-parse cycle: nonempty, word characters
and spaces only, first and last character a word character. -/
def goodTag (s : String) : Bool :=
  !s.data.isEmpty &&
  s.data.all (fun c => isWordChar c || c = ' ') &&
  (match s.data.head? with | some c => isWordChar c | none => false) &&
  (match s.data.getLast? with | some c => isWordChar c | none => false)

/-- Validity of an optional datetime. -/
def validOpt : Option DateTime → Prop
  | some d => d.Valid
  | none => True

instance : ∀ o, Decidable (validOpt o) := fun o => by
  cases o <;> unfold validOpt <;> infer_instance

/-- Sufficient grammar conformance for the serialize-parse round trip: keys
agree with task names and are distinct within their collection, names and
tags match the line grammar, timestamps are valid sentinel-year datetimes at
minute granularity, every entry duration and per-task total duration lies in
0 to strictly below 100 hours (so the duration parenthetical keeps its
two-digit shape), and every non-last time entry is closed. -/
def RoundTripReady (s : TymeSheet) (now : DateTime) : Prop :=
  (∀ p ∈ s.todo, p.1 = p.2.name) ∧
  (∀ p ∈ s.done, p.1 = p.2.name) ∧
  (s.todo.map Prod.fst).Nodup ∧
  (s.done.map Prod.fst).Nodup ∧
  (∀ p ∈ s.todo ++ s.done,
      goodName p.2.name = true ∧ (∀ tg ∈ p.2.tags, goodTag tg = true) ∧
      validOpt p.2.deadline) ∧
  (∀ p ∈ s.todo ++ s.done, 0 ≤ p.2.timeSecs s now ∧ p.2.timeSecs s now < 360000) ∧
  (∀ e ∈ s.time, goodName e.task = true ∧ e.start.Valid ∧ validOpt e.stop) ∧
  (∀ e ∈ s.time, 0 ≤ e.timeSecs now ∧ e.timeSecs now < 360000) ∧
  (∀ e ∈ s.time.dropLast, e.stop ≠ none)

instance (s : TymeSheet) (now : DateTime) : Decidable (RoundTripReady s now) := by
  unfold RoundTripReady; infer_instance

end Tyme

deriving instance DecidableEq for Except

namespace Tyme

/-! ### Helper lemmas about the operations -/

theorem clock_out_of_current (s : TymeSheet) (e : Entry) (t : Option DateTime)
    (now : DateTime) (h : s.current_entry = some e) :
    s.clock_out t now =
      (.ok e.task, { s with time := s.time.dropLast ++ [{ e with stop := some (t.getD now) }] }) := by
  unfold TymeSheet.clock_out
  rw [h]

theorem clock_out_of_no_current (s : TymeSheet) (t : Option DateTime)
    (now : DateTime) (h : s.current_entry = none) :
    s.clock_out t now = (.error (.tymeError "Not clocked in."), s) := by
  unfold TymeSheet.clock_out
  rw [h]

/-! ### Claim theorems: operations -/

/-- C9: constructing an Entry whose non-null end is strictly earlier than its
start raises TymeError; construction with end equal to start, end later than
start, or a null end succeeds and returns the entry unchanged. -/
theorem c9_entry_construction (task : String) (start stop : DateTime) :
    (DateTime.lt stop start = true →
        Entry.make task start (some stop) =
          .error (.tymeError "Entry cannot end before it begins!")) ∧
    (DateTime.lt stop start = false →
        Entry.make task start (some stop) = .ok ⟨task, start, some stop⟩) ∧
    Entry.make task start none = .ok ⟨task, start, none⟩ := by
  refine ⟨fun h => ?_, fun h => ?_, rfl⟩ <;> simp [Entry.make, h]

/-- Witness for C9 at concrete datetimes: end one minute before start fails,
end equal to start succeeds, null end succeeds. -/
theorem c9_entry_construction_witness :
    (Entry.make "t" ⟨1, 2, 3, 4, 0⟩ (some ⟨1, 2, 3, 3, 0⟩) =
        .error (.tymeError "Entry cannot end before it begins!")) ∧
    (Entry.make "t" ⟨1, 2, 3, 4, 0⟩ (some ⟨1, 2, 3, 4, 0⟩) =
        .ok ⟨"t", ⟨1, 2, 3, 4, 0⟩, some ⟨1, 2, 3, 4, 0⟩⟩) ∧
    Entry.make "t" ⟨1, 2, 3, 4, 0⟩ none = .ok ⟨"t", ⟨1, 2, 3, 4, 0⟩, none⟩ :=
  ⟨(c9_entry_construction "t" ⟨1, 2, 3, 4, 0⟩ ⟨1, 2, 3, 3, 0⟩).1 (by decide),
   (c9_entry_construction "t" ⟨1, 2, 3, 4, 0⟩ ⟨1, 2, 3, 4, 0⟩).2.1 (by decide),
   (c9_entry_construction "t" ⟨1, 2, 3, 4, 0⟩ ⟨1, 2, 3, 4, 0⟩).2.2⟩

/-- C10: clock_in never raises, for any task name and any sheet — the code
performs no lookup of the name, so an unknown name succeeds and the sheet
gains an open entry carrying that name as a dangling reference, with the
task collections untouched. -/
theorem c10_clock_in_never_raises (s : TymeSheet) (task : String)
    (time : Option DateTime) (now : DateTime) :
    (s.clock_in task time now).1 = .ok () ∧
    (s.clock_in task time now).2.time.getLast? = some ⟨task, time.getD now, none⟩ ∧
    (s.clock_in task time now).2.todo = s.todo ∧
    (s.clock_in task time now).2.done = s.done := by
  unfold TymeSheet.clock_in
  cases hc : s.current_entry with
  | none => simp [hc, Entry.make, List.getLast?_concat]
  | some e => simp [hc, TymeSheet.clock_out, Entry.make, List.getLast?_concat]

/-- C2: the claim says add_task must fail when the name is present in todo
or done; the code checks only todo, so a name present only in done is
re-added as a pending task (violating the data model's uniqueness
invariant), while a todo duplicate does raise.  This theorem evaluates the
code at the failing input. -/
theorem c2_add_task_checks_only_todo :
    (TymeSheet.add_task ⟨[], [], [("x", ⟨"x", [], none⟩)]⟩ "x" ["t"] none).1 = .ok () ∧
    (TymeSheet.add_task ⟨[], [], [("x", ⟨"x", [], none⟩)]⟩ "x" ["t"] none).2 =
      ⟨[("x", ⟨"x", ["t"], none⟩)], [], [("x", ⟨"x", [], none⟩)]⟩ ∧
    odMem "x" (TymeSheet.done ⟨[], [], [("x", ⟨"x", [], none⟩)]⟩) = true ∧
    (TymeSheet.add_task ⟨[("y", ⟨"y", [], none⟩)], [], []⟩ "y" [] none).1 =
      .error (.tymeError "That task already exists.") := by
  decide

/-- C3: the claim says the end-at-or-after-start invariant is preserved by
every operation, including clock_out at a time earlier than the open entry's
start; but clock_out assigns the end directly, bypassing the Entry
constructor check, so that call produces an entry violating the invariant. -/
theorem c3_clock_out_breaks_invariant :
    (TymeSheet.clock_out ⟨[], [⟨"ab", ⟨10, 10, 8, 10, 0⟩, none⟩], []⟩
        (some ⟨10, 10, 7, 15, 0⟩) ⟨10, 11, 9, 0, 0⟩).1 = .ok "ab" ∧
    (TymeSheet.clock_out ⟨[], [⟨"ab", ⟨10, 10, 8, 10, 0⟩, none⟩], []⟩
        (some ⟨10, 10, 7, 15, 0⟩) ⟨10, 11, 9, 0, 0⟩).2 =
      ⟨[], [⟨"ab", ⟨10, 10, 8, 10, 0⟩, some ⟨10, 10, 7, 15, 0⟩⟩], []⟩ ∧
    endGeStart ⟨"ab", ⟨10, 10, 8, 10, 0⟩, some ⟨10, 10, 7, 15, 0⟩⟩ = false := by
  decide

/-- C4: with an open entry, clock_in at time t closes it at t and appends a
new open entry starting at t, so the boundary times coincide (no gap, no
overlap); with the time omitted, the single now value plays both roles. -/
theorem c4_clock_in_contiguous (s : TymeSheet) (e : Entry) (task : String)
    (t now : DateTime) (h : s.current_entry = some e) :
    (s.clock_in task (some t) now).2.time =
      s.time.dropLast ++ [{ e with stop := some t }, ⟨task, t, none⟩] ∧
    (s.clock_in task none now).2.time =
      s.time.dropLast ++ [{ e with stop := some now }, ⟨task, now, none⟩] := by
  constructor <;> · unfold TymeSheet.clock_in
                    simp [h, TymeSheet.clock_out, Entry.make]

/-- Witness for C4: clocking in over an open entry at a concrete time. -/
theorem c4_clock_in_contiguous_witness :
    (TymeSheet.clock_in ⟨[], [⟨"ab", ⟨1, 2, 3, 0, 0⟩, none⟩], []⟩ "cd"
        (some ⟨1, 2, 4, 0, 0⟩) ⟨1, 2, 5, 0, 0⟩).2.time =
      [⟨"ab", ⟨1, 2, 3, 0, 0⟩, some ⟨1, 2, 4, 0, 0⟩⟩, ⟨"cd", ⟨1, 2, 4, 0, 0⟩, none⟩] ∧
    (TymeSheet.clock_in ⟨[], [⟨"ab", ⟨1, 2, 3, 0, 0⟩, none⟩], []⟩ "cd"
        none ⟨1, 2, 5, 0, 0⟩).2.time =
      [⟨"ab", ⟨1, 2, 3, 0, 0⟩, some ⟨1, 2, 5, 0, 0⟩⟩, ⟨"cd", ⟨1, 2, 5, 0, 0⟩, none⟩] :=
  c4_clock_in_contiguous ⟨[], [⟨"ab", ⟨1, 2, 3, 0, 0⟩, none⟩], []⟩
    ⟨"ab", ⟨1, 2, 3, 0, 0⟩, none⟩ "cd" ⟨1, 2, 4, 0, 0⟩ ⟨1, 2, 5, 0, 0⟩ (by decide)

theorem complete_task_spec (s : TymeSheet) (name : String)
    (time : Option DateTime) (now : DateTime) :
    (odGet name s.todo = none →
        s.complete_task name time now = (.error (.tymeError "No such task."), s)) ∧
    (∀ task, odGet name s.todo = some task →
      (s.complete_task name time now).1 = .ok () ∧
      (s.complete_task name time now).2.todo = odPop name s.todo ∧
      (s.complete_task name time now).2.done =
        odInsert s.done name { task with deadline := some (time.getD now) } ∧
      ((∀ cur, s.current_entry = some cur → cur.task ≠ name) →
          (s.complete_task name time now).2.time = s.time) ∧
      (∀ cur, s.current_entry = some cur → cur.task = name →
          (s.complete_task name time now).2.time =
            s.time.dropLast ++ [{ cur with stop := some (time.getD now) }])) := by
  constructor
  · intro h
    unfold TymeSheet.complete_task
    rw [h]
  · intro task h
    unfold TymeSheet.complete_task
    rw [h]
    have hce : ∀ td dn, TymeSheet.current_entry ⟨td, s.time, dn⟩ = s.current_entry := by
      intro td dn; rfl
    cases hc : s.current_entry with
    | none => simp [hce, hc]
    | some cur =>
        simp only [hce, hc]
        by_cases hname : cur.task = name
        · simp [hname, TymeSheet.clock_out, hce, hc]
        · simp [hname, TymeSheet.clock_out, hce, hc]

/-- C5: complete_task raises exactly when the name is not a key of todo;
otherwise it removes the task from todo, inserts it into done with deadline
set to the given time (default now), and closes the open entry at that same
time exactly when the open entry references this task, leaving an open
entry of a different task untouched. -/
theorem c5_complete_task_spec (s : TymeSheet) (name : String)
    (time : Option DateTime) (now : DateTime) :
    (odGet name s.todo = none →
        s.complete_task name time now = (.error (.tymeError "No such task."), s)) ∧
    (∀ task, odGet name s.todo = some task →
      (s.complete_task name time now).1 = .ok () ∧
      (s.complete_task name time now).2.todo = odPop name s.todo ∧
      (s.complete_task name time now).2.done =
        odInsert s.done name { task with deadline := some (time.getD now) } ∧
      ((∀ cur, s.current_entry = some cur → cur.task ≠ name) →
          (s.complete_task name time now).2.time = s.time) ∧
      (∀ cur, s.current_entry = some cur → cur.task = name →
          (s.complete_task name time now).2.time =
            s.time.dropLast ++ [{ cur with stop := some (time.getD now) }])) :=
  complete_task_spec s name time now

/-- Witness for C5: an unknown name raises; completing a task with a
matching open entry moves it to done and closes the entry at the deadline. -/
theorem c5_complete_task_spec_witness :
    (TymeSheet.complete_task ⟨[], [], []⟩ "x" none ⟨1, 1, 0, 0, 0⟩ =
        (.error (.tymeError "No such task."), ⟨[], [], []⟩)) ∧
    (TymeSheet.complete_task ⟨[("ab", ⟨"ab", [], none⟩)], [⟨"ab", ⟨1, 2, 3, 0, 0⟩, none⟩], []⟩
        "ab" (some ⟨1, 2, 4, 0, 0⟩) ⟨1, 1, 0, 0, 0⟩).2.done =
      odInsert [] "ab" ⟨"ab", [], some ⟨1, 2, 4, 0, 0⟩⟩ ∧
    (TymeSheet.complete_task ⟨[("ab", ⟨"ab", [], none⟩)], [⟨"ab", ⟨1, 2, 3, 0, 0⟩, none⟩], []⟩
        "ab" (some ⟨1, 2, 4, 0, 0⟩) ⟨1, 1, 0, 0, 0⟩).2.time =
      [⟨"ab", ⟨1, 2, 3, 0, 0⟩, some ⟨1, 2, 4, 0, 0⟩⟩] :=
  ⟨(c5_complete_task_spec ⟨[], [], []⟩ "x" none ⟨1, 1, 0, 0, 0⟩).1 (by decide),
   (((c5_complete_task_spec
        ⟨[("ab", ⟨"ab", [], none⟩)], [⟨"ab", ⟨1, 2, 3, 0, 0⟩, none⟩], []⟩
        "ab" (some ⟨1, 2, 4, 0, 0⟩) ⟨1, 1, 0, 0, 0⟩).2 ⟨"ab", [], none⟩ (by decide)).2.2).1,
   ((((c5_complete_task_spec
        ⟨[("ab", ⟨"ab", [], none⟩)], [⟨"ab", ⟨1, 2, 3, 0, 0⟩, none⟩], []⟩
        "ab" (some ⟨1, 2, 4, 0, 0⟩) ⟨1, 1, 0, 0, 0⟩).2 ⟨"ab", [], none⟩ (by decide)).2.2).2.2
      ⟨"ab", ⟨1, 2, 3, 0, 0⟩, none⟩ (by decide) rfl)⟩

/-- C8: whenever add_task, clock_out or complete_task raises TymeError, the
sheet's collections are exactly what they were before the call. -/
theorem c8_failed_ops_leave_sheet_unchanged (s : TymeSheet) (name : String)
    (tags : List String) (dl time : Option DateTime) (now : DateTime) :
    (∀ e, (s.add_task name tags dl).1 = .error e → (s.add_task name tags dl).2 = s) ∧
    (∀ e, (s.clock_out time now).1 = .error e → (s.clock_out time now).2 = s) ∧
    (∀ e, (s.complete_task name time now).1 = .error e →
        (s.complete_task name time now).2 = s) := by
  refine ⟨?_, ?_, ?_⟩
  · intro e
    unfold TymeSheet.add_task
    split
    · intro _; rfl
    · intro h; exact absurd h (by simp)
  · intro e
    cases hc : s.current_entry with
    | none => rw [clock_out_of_no_current s time now hc]; intro _; rfl
    | some cur => rw [clock_out_of_current s cur time now hc]; intro h; exact absurd h (by simp)
  · intro e
    cases hg : odGet name s.todo with
    | none => rw [(complete_task_spec s name time now).1 hg]; intro _; rfl
    | some task =>
        intro h
        have := ((complete_task_spec s name time now).2 task hg).1
        rw [this] at h
        exact absurd h (by simp)

/-- Witness for C8: each of the three operations raising at a concrete
input leaves the concrete sheet unchanged. -/
theorem c8_failed_ops_witness :
    (TymeSheet.add_task ⟨[("y", ⟨"y", [], none⟩)], [], []⟩ "y" [] none).2 =
      ⟨[("y", ⟨"y", [], none⟩)], [], []⟩ ∧
    (TymeSheet.clock_out ⟨[], [], []⟩ none ⟨1, 1, 0, 0, 0⟩).2 = ⟨[], [], []⟩ ∧
    (TymeSheet.complete_task ⟨[], [], []⟩ "x" none ⟨1, 1, 0, 0, 0⟩).2 = ⟨[], [], []⟩ :=
  ⟨(c8_failed_ops_leave_sheet_unchanged ⟨[("y", ⟨"y", [], none⟩)], [], []⟩ "y" [] none none
      ⟨1, 1, 0, 0, 0⟩).1 (.tymeError "That task already exists.") (by decide),
   (c8_failed_ops_leave_sheet_unchanged ⟨[], [], []⟩ "x" [] none none ⟨1, 1, 0, 0, 0⟩).2.1
      (.tymeError "Not clocked in.") (by decide),
   (c8_failed_ops_leave_sheet_unchanged ⟨[], [], []⟩ "x" [] none none ⟨1, 1, 0, 0, 0⟩).2.2
      (.tymeError "No such task.") (by decide)⟩

/-- C7: tag_filter with no tags returns the receiver itself; with a
non-empty tag list it keeps exactly the pending and completed tasks whose
tag set contains every filter tag and exactly the entries whose task name
survives in a kept collection; and filtering twice equals filtering once. -/
theorem c7_tag_filter_spec (s : TymeSheet) (a : List String) :
    s.tag_filter [] = s ∧
    (s.tag_filter a).tag_filter a = s.tag_filter a ∧
    (a ≠ [] →
      (∀ p, p ∈ (s.tag_filter a).todo ↔ p ∈ s.todo ∧ ∀ x ∈ a, x ∈ p.2.tags) ∧
      (∀ p, p ∈ (s.tag_filter a).done ↔ p ∈ s.done ∧ ∀ x ∈ a, x ∈ p.2.tags) ∧
      (∀ e, e ∈ (s.tag_filter a).time ↔ e ∈ s.time ∧
          (odMem e.task (s.tag_filter a).todo || odMem e.task (s.tag_filter a).done) = true)) := by
  have hfilter : ∀ (l : List (String × Task)),
      (l.filter (fun p => a.all fun x => p.2.tags.contains x)).filter
          (fun p => a.all fun x => p.2.tags.contains x) =
        l.filter (fun p => a.all fun x => p.2.tags.contains x) := by
    intro l
    apply List.filter_eq_self.mpr
    intro x hx
    exact (List.mem_filter.mp hx).2
  refine ⟨by simp [TymeSheet.tag_filter], ?_, ?_⟩
  · by_cases ha : a = []
    · subst ha; simp [TymeSheet.tag_filter]
    · simp only [TymeSheet.tag_filter, if_neg ha]
      rw [TymeSheet.mk.injEq]
      refine ⟨?_, ?_, ?_⟩
      · exact hfilter s.todo
      · simp only [hfilter]
        apply List.filter_eq_self.mpr
        intro e he
        exact (List.mem_filter.mp he).2
      · exact hfilter s.done
  · intro ha
    refine ⟨?_, ?_, ?_⟩
    · intro p
      simp only [TymeSheet.tag_filter, if_neg ha, List.mem_filter, List.all_eq_true]
      simp [List.elem_iff]
    · intro p
      simp only [TymeSheet.tag_filter, if_neg ha, List.mem_filter, List.all_eq_true]
      simp [List.elem_iff]
    · intro e
      simp only [TymeSheet.tag_filter, if_neg ha, List.mem_filter]

/-- Witness for C7 at a concrete sheet and filter: identity on no tags, a
kept task, a dropped task, and a kept entry. -/
theorem c7_tag_filter_spec_witness :
    (TymeSheet.tag_filter ⟨[("ab", ⟨"ab", ["w"], none⟩), ("cd", ⟨"cd", [], none⟩)],
        [⟨"ab", ⟨1, 2, 3, 0, 0⟩, none⟩], []⟩ [] =
      ⟨[("ab", ⟨"ab", ["w"], none⟩), ("cd", ⟨"cd", [], none⟩)],
        [⟨"ab", ⟨1, 2, 3, 0, 0⟩, none⟩], []⟩) ∧
    ((("ab", (⟨"ab", ["w"], none⟩ : Task)) ∈
        (TymeSheet.tag_filter ⟨[("ab", ⟨"ab", ["w"], none⟩), ("cd", ⟨"cd", [], none⟩)],
          [⟨"ab", ⟨1, 2, 3, 0, 0⟩, none⟩], []⟩ ["w"]).todo) ↔
      (("ab", (⟨"ab", ["w"], none⟩ : Task)) ∈
          [("ab", (⟨"ab", ["w"], none⟩ : Task)), ("cd", ⟨"cd", [], none⟩)] ∧
        ∀ x ∈ ["w"], x ∈ ["w"])) :=
  ⟨(c7_tag_filter_spec ⟨[("ab", ⟨"ab", ["w"], none⟩), ("cd", ⟨"cd", [], none⟩)],
      [⟨"ab", ⟨1, 2, 3, 0, 0⟩, none⟩], []⟩ []).1,
   ((c7_tag_filter_spec ⟨[("ab", ⟨"ab", ["w"], none⟩), ("cd", ⟨"cd", [], none⟩)],
      [⟨"ab", ⟨1, 2, 3, 0, 0⟩, none⟩], []⟩ ["w"]).2.2 (by decide)).1
     ("ab", ⟨"ab", ["w"], none⟩)⟩

/-- C6: on any document whose section structure parses, from_file raises
ParseError "Unfinished nonfinal entry" whenever a non-last time entry is
open — in particular whenever at least two time entries are open — and
validation passes (the parse succeeds) when only the last entry can be
open. -/
theorem c6_unfinished_nonfinal (doc : String) (now : DateTime) (s : TymeSheet)
    (h : parseStructure doc now = .ok s) :
    (s.time.dropLast.any (fun e => e.stop.isNone) = true →
        from_file doc now = .error (.parseError "Unfinished nonfinal entry")) ∧
    (2 ≤ (s.time.filter (fun e => e.stop.isNone)).length →
        from_file doc now = .error (.parseError "Unfinished nonfinal entry")) ∧
    (s.time.dropLast.all (fun e => e.stop.isSome) = true →
        from_file doc now = .ok s) := by
  have key : s.time.dropLast.any (fun e => e.stop.isNone) = true →
      from_file doc now = .error (.parseError "Unfinished nonfinal entry") := by
    intro hany
    have hv : s.time.dropLast.all (fun e => e.stop.isSome) = false := by
      rcases List.any_eq_true.mp hany with ⟨e, he, hne⟩
      refine Bool.eq_false_iff.mpr fun hall => ?_
      have hs := List.all_eq_true.mp hall e he
      rw [Option.isNone_iff_eq_none] at hne
      rw [hne] at hs
      simp at hs
    simp [from_file, h, TymeSheet._validate, hv]
  refine ⟨key, ?_, ?_⟩
  · intro h2
    apply key
    by_contra hno
    have hall : ∀ e ∈ s.time.dropLast, e.stop.isNone = false := by
      intro e he
      by_contra hne
      exact hno (List.any_eq_true.mpr ⟨e, he, by simpa using hne⟩)
    rcases List.eq_nil_or_concat s.time with h0 | ⟨l, x, hx⟩
    · rw [h0] at h2; simp at h2
    · rw [List.concat_eq_append] at hx
      rw [hx] at h2
      rw [hx, List.dropLast_concat] at hall
      rw [List.filter_append] at h2
      have hl : l.filter (fun e => e.stop.isNone) = [] :=
        List.filter_eq_nil_iff.mpr (fun e he => by simp [hall e he])
      rw [hl] at h2
      have : (List.filter (fun e => e.stop.isNone) [x]).length ≤ 1 := by
        cases hb : x.stop.isNone <;> simp [List.filter, hb]
      simp at h2
      omega
  · intro hv
    simp [from_file, h, TymeSheet._validate, hv]

/-- Witness for C6: a document with an open entry before a closed one
raises; a document whose only open entry is last parses. -/
theorem c6_unfinished_nonfinal_witness :
    from_file (TymeSheet.toStr ⟨[],
        [⟨"ab", ⟨1, 2, 3, 0, 0⟩, none⟩, ⟨"cd", ⟨1, 2, 4, 0, 0⟩, some ⟨1, 2, 5, 0, 0⟩⟩],
        []⟩ ⟨1, 2, 6, 0, 0⟩) ⟨1, 2, 6, 0, 0⟩ =
      .error (.parseError "Unfinished nonfinal entry") ∧
    from_file (TymeSheet.toStr ⟨[],
        [⟨"ab", ⟨1, 2, 3, 0, 0⟩, some ⟨1, 2, 4, 0, 0⟩⟩, ⟨"cd", ⟨1, 2, 4, 0, 0⟩, none⟩],
        []⟩ ⟨1, 2, 6, 0, 0⟩) ⟨1, 2, 6, 0, 0⟩ =
      .ok ⟨[],
        [⟨"ab", ⟨1, 2, 3, 0, 0⟩, some ⟨1, 2, 4, 0, 0⟩⟩, ⟨"cd", ⟨1, 2, 4, 0, 0⟩, none⟩],
        []⟩ :=
  ⟨(c6_unfinished_nonfinal _ ⟨1, 2, 6, 0, 0⟩
      ⟨[], [⟨"ab", ⟨1, 2, 3, 0, 0⟩, none⟩, ⟨"cd", ⟨1, 2, 4, 0, 0⟩, some ⟨1, 2, 5, 0, 0⟩⟩], []⟩
      (by decide)).1 (by decide),
   (c6_unfinished_nonfinal _ ⟨1, 2, 6, 0, 0⟩
      ⟨[], [⟨"ab", ⟨1, 2, 3, 0, 0⟩, some ⟨1, 2, 4, 0, 0⟩⟩, ⟨"cd", ⟨1, 2, 4, 0, 0⟩, none⟩], []⟩
      (by decide)).2.2 (by decide)⟩

/-- C1, refutation of the claim as stated: this sheet satisfies the global
invariants, but its single task name is one character long, which the
task-name pattern (at least two word characters) cannot match, so parsing
the serialized sheet raises ParseError instead of round-tripping. -/
theorem c1_roundtrip_counterexample :
    claimInvariants ⟨[("a", ⟨"a", [], none⟩)], [], []⟩ ∧
    from_file (TymeSheet.toStr ⟨[("a", ⟨"a", [], none⟩)], [], []⟩ ⟨1, 1, 0, 0, 0⟩)
        ⟨1, 1, 0, 0, 0⟩ =
      .error (.parseError "Bad Task: (00:00)   a\n") := by decide

end Tyme

namespace Tyme

/-! ### Round-trip machinery: character classes -/

theorem pySpace_not_wordChar {c : Char} (h : isPySpace c = true) : isWordChar c = false := by
  simp only [isPySpace, Bool.or_eq_true, decide_eq_true_eq] at h
  rcases h with ((((h | h) | h) | h) | h) | h <;> subst h <;> decide

theorem wordChar_not_pySpace {c : Char} (h : isWordChar c = true) : isPySpace c = false := by
  cases hc : isPySpace c with
  | false => rfl
  | true => rw [pySpace_not_wordChar hc] at h; cases h

theorem isDigit_val {c : Char} (h : isDigitChar c = true) : 48 ≤ c.toNat ∧ c.toNat ≤ 57 := by
  simp only [isDigitChar, Char.isDigit, Bool.and_eq_true, decide_eq_true_eq] at h
  exact ⟨h.1, h.2⟩

theorem isDigit_wordChar {c : Char} (h : isDigitChar c = true) : isWordChar c = true := by
  simp only [isWordChar, Char.isAlphanum, isDigitChar] at h ⊢
  rw [h]
  simp

theorem isDigit_not_pySpace {c : Char} (h : isDigitChar c = true) : isPySpace c = false :=
  wordChar_not_pySpace (isDigit_wordChar h)

theorem digitChar_isDigit {k : Nat} (h : k < 10) : isDigitChar (digitChar k) = true := by
  interval_cases k <;> decide

theorem digitChar_toNat {k : Nat} (h : k < 10) : (digitChar k).toNat = 48 + k := by
  interval_cases k <;> decide

/-! ### Round-trip machinery: generic list lemmas -/

theorem takeWhile_append_all_not {p : Char → Bool} {a : List Char} (b : List Char)
    (ha : ∀ c ∈ a, p c = true)
    (hb : ∀ c, b.head? = some c → p c = false) :
    (a ++ b).takeWhile p = a := by
  induction a with
  | nil =>
      cases b with
      | nil => rfl
      | cons c r =>
          have hb' : p c = false := hb c rfl
          simp [List.takeWhile_cons, hb']
  | cons x a ih =>
      have hx := ha x (by simp)
      simp [List.takeWhile_cons, hx, ih (fun c hc => ha c (by simp [hc]))]

theorem dropWhile_append_all {p : Char → Bool} {a : List Char} (b : List Char)
    (ha : ∀ c ∈ a, p c = true) :
    (a ++ b).dropWhile p = b.dropWhile p := by
  induction a with
  | nil => rfl
  | cons x a ih =>
      simp [List.dropWhile_cons, ha x (by simp), ih (fun c hc => ha c (by simp [hc]))]

theorem drop_append_left (a b : List Char) : (a ++ b).drop a.length = b :=
  List.drop_left a b

theorem wsCount_replicate (k : Nat) (rest : List Char)
    (h : ∀ c, rest.head? = some c → isPySpace c = false) :
    wsCount (List.replicate k ' ' ++ rest) = k := by
  unfold wsCount
  rw [takeWhile_append_all_not rest (fun c hc => by rw [List.eq_of_mem_replicate hc]; rfl) h]
  exact List.length_replicate ..

theorem drop_replicate (k : Nat) (rest : List Char) :
    (List.replicate k ' ' ++ rest).drop k = rest := by
  have := List.drop_left (List.replicate k ' ') rest
  rwa [List.length_replicate] at this

theorem take_replicate (k : Nat) (rest : List Char) :
    (List.replicate k ' ' ++ rest).take k = List.replicate k ' ' := by
  have := List.take_left (List.replicate k ' ') rest
  rwa [List.length_replicate] at this

/-! ### Round-trip machinery: strip lemmas -/

theorem stripRight_append_spaces {sp : List Char} (a : List Char)
    (h : ∀ c ∈ sp, isPySpace c = true) : stripRight (a ++ sp) = stripRight a := by
  unfold stripRight
  rw [List.reverse_append, dropWhile_append_all _ (fun c hc => h c (List.mem_reverse.mp hc))]

theorem stripRight_last_not {a : List Char} {c : Char} (h : isPySpace c = false) :
    stripRight (a ++ [c]) = a ++ [c] := by
  unfold stripRight
  rw [List.reverse_append]
  simp [List.dropWhile_cons, h]

theorem stripRight_no_trailing {l : List Char}
    (h : ∀ x, l.getLast? = some x → isPySpace x = false) : stripRight l = l := by
  rcases List.eq_nil_or_concat l with h0 | ⟨a, x, hx⟩
  · subst h0; rfl
  · rw [List.concat_eq_append] at hx
    subst hx
    exact stripRight_last_not (h x (List.getLast?_concat a))

theorem stripChars_head_not {c : Char} {r : List Char} (h : isPySpace c = false) :
    stripChars (c :: r) = stripRight (c :: r) := by
  unfold stripChars
  simp [List.dropWhile_cons, h]

theorem stripChars_spaces_token {tok : List Char} (k : Nat)
    (hhead : ∀ c, tok.head? = some c → isPySpace c = false)
    (hlast : ∀ x, tok.getLast? = some x → isPySpace x = false) :
    stripChars (List.replicate k ' ' ++ tok) = tok := by
  unfold stripChars
  rw [dropWhile_append_all _ (fun c hc => by rw [List.eq_of_mem_replicate hc]; rfl)]
  cases tok with
  | nil => rfl
  | cons c r =>
      rw [List.dropWhile_cons, if_neg (by simp [hhead c rfl])]
      exact stripRight_no_trailing hlast

end Tyme

namespace Tyme

/-! ### Round-trip machinery: the time formatters invert -/

theorem daysInMonth_le (m : Nat) : daysInMonth m ≤ 31 := by
  unfold daysInMonth
  split <;> omega

theorem pad2_data (n : Nat) :
    (pad2 n).data = [digitChar (n / 10 % 10), digitChar (n % 10)] := rfl

theorem pad2_data_lt {n : Nat} (h : n < 100) :
    (pad2 n).data = [digitChar (n / 10), digitChar (n % 10)] := by
  rw [pad2_data, Nat.mod_eq_of_lt (by omega : n / 10 < 10)]

theorem pad2_all_digit (n : Nat) : ∀ c ∈ (pad2 n).data, isDigitChar c = true := by
  intro c hc
  rw [pad2_data] at hc
  rcases List.mem_cons.mp hc with h | h
  · subst h; exact digitChar_isDigit (Nat.mod_lt _ (by omega))
  · rcases List.mem_cons.mp h with h' | h'
    · subst h'; exact digitChar_isDigit (Nat.mod_lt _ (by omega))
    · cases h'

theorem read2_pad2 (n : Nat) (h : n < 100) (rest : List Char) :
    read2 ((pad2 n).data ++ rest) = some (n, rest) := by
  have h1 : n / 10 < 10 := by omega
  have h2 : n % 10 < 10 := Nat.mod_lt _ (by omega)
  rw [pad2_data_lt h]
  show read2 (digitChar (n / 10) :: digitChar (n % 10) :: rest) = some (n, rest)
  simp only [read2, digitChar_isDigit h1, digitChar_isDigit h2, if_true]
  have : ((digitChar (n / 10)).toNat - 48) * 10 + ((digitChar (n % 10)).toNat - 48) = n := by
    rw [digitChar_toNat h1, digitChar_toNat h2]
    omega
  rw [this]

theorem fmt_time_data (t : DateTime) :
    (fmt_time t).data =
      (pad2 t.month).data ++ ('-' :: ((pad2 t.day).data ++ (' ' ::
        ((pad2 t.hour).data ++ (':' :: (pad2 t.minute).data))))) := by
  have hd : ("-" : String).data = ['-'] := rfl
  have hsp : (" " : String).data = [' '] := rfl
  have hco : (":" : String).data = [':'] := rfl
  show (pad2 t.month ++ "-" ++ pad2 t.day ++ " " ++ pad2 t.hour ++ ":" ++ pad2 t.minute).data = _
  simp [String.data_append, hd, hsp, hco]

theorem fmt_time_head (t : DateTime) :
    ∃ r, (fmt_time t).data = digitChar (t.month / 10 % 10) :: r := by
  rw [fmt_time_data, pad2_data]
  exact ⟨_, rfl⟩

theorem fmt_time_last (t : DateTime) :
    ∃ r, (fmt_time t).data = r ++ [digitChar (t.minute % 10)] := by
  refine ⟨(pad2 t.month).data ++ ('-' :: ((pad2 t.day).data ++ (' ' ::
    ((pad2 t.hour).data ++ [':', digitChar (t.minute / 10 % 10)])))), ?_⟩
  rw [fmt_time_data, pad2_data t.minute]
  simp

theorem matchDate_shape (a b : List Char) (x1 x2 y1 y2 : Char) (rest : List Char)
    (ha0 : a ≠ []) (ha : ∀ c ∈ a, isDigitChar c = true)
    (hb0 : b ≠ []) (hb : ∀ c ∈ b, isDigitChar c = true)
    (hx1 : isDigitChar x1 = true) (hx2 : isDigitChar x2 = true)
    (hy1 : isDigitChar y1 = true) (hy2 : isDigitChar y2 = true) :
    matchDate (a ++ ('-' :: (b ++ (' ' :: x1 :: x2 :: ':' :: y1 :: y2 :: rest)))) =
      some (a ++ ('-' :: (b ++ [' ', x1, x2, ':', y1, y2])), rest) := by
  have hd1 : digitsScan (a ++ ('-' :: (b ++ (' ' :: x1 :: x2 :: ':' :: y1 :: y2 :: rest)))) = a := by
    unfold digitsScan
    exact takeWhile_append_all_not _ ha (fun c hc => by cases hc; decide)
  have hd2 : digitsScan (b ++ (' ' :: x1 :: x2 :: ':' :: y1 :: y2 :: rest)) = b := by
    unfold digitsScan
    exact takeWhile_append_all_not _ hb (fun c hc => by cases hc; decide)
  have ea : a.isEmpty = false := by
    cases a with
    | nil => exact absurd rfl ha0
    | cons _ _ => rfl
  have eb : b.isEmpty = false := by
    cases b with
    | nil => exact absurd rfl hb0
    | cons _ _ => rfl
  unfold matchDate
  simp [hd1, hd2, ea, eb, List.drop_left, hx1, hx2, hy1, hy2]

theorem matchDate_fmt {t : DateTime} (hv : t.Valid) (rest : List Char) :
    matchDate ((fmt_time t).data ++ rest) = some ((fmt_time t).data, rest) := by
  obtain ⟨h1, h2, h3, h4, h5, h6, h7⟩ := hv
  rw [fmt_time_data,
    pad2_data_lt (show t.hour < 100 by omega),
    pad2_data_lt (show t.minute < 100 by omega)]
  have hs := matchDate_shape (pad2 t.month).data (pad2 t.day).data
    (digitChar (t.hour / 10)) (digitChar (t.hour % 10))
    (digitChar (t.minute / 10)) (digitChar (t.minute % 10)) rest
    (by rw [pad2_data]; simp) (pad2_all_digit _)
    (by rw [pad2_data]; simp) (pad2_all_digit _)
    (digitChar_isDigit (by omega)) (digitChar_isDigit (Nat.mod_lt _ (by omega)))
    (digitChar_isDigit (by omega)) (digitChar_isDigit (Nat.mod_lt _ (by omega)))
  simpa using hs

theorem parseFullTime_fmt {t : DateTime} (hv : t.Valid) :
    parseFullTime (fmt_time t).data = some t := by
  obtain ⟨h1, h2, h3, h4, h5, h6, h7⟩ := hv
  rw [fmt_time_data]
  have e1 := read2_pad2 t.month (by omega)
    ('-' :: ((pad2 t.day).data ++ (' ' :: ((pad2 t.hour).data ++ (':' :: (pad2 t.minute).data)))))
  have e2 := read2_pad2 t.day (by have := daysInMonth_le t.month; omega)
    (' ' :: ((pad2 t.hour).data ++ (':' :: (pad2 t.minute).data)))
  have e3 := read2_pad2 t.hour (by omega) (':' :: (pad2 t.minute).data)
  have e4 : read2 (pad2 t.minute).data = some (t.minute, []) := by
    simpa using read2_pad2 t.minute (by omega) []
  unfold parseFullTime
  simp only [e1, e2, e3, e4]
  rw [if_pos (by exact ⟨by trivial, h1, h2, h3, h4, by omega, by omega⟩)]
  cases t
  simp_all

theorem parse_time_of_full {cs : List Char} {t : DateTime} (now : DateTime)
    (h : parseFullTime (stripChars cs) = some t) : parse_time cs now = .ok t := by
  unfold parse_time
  simp [h]

theorem stripChars_spaces_fmt (k : Nat) (t : DateTime) :
    stripChars (List.replicate k ' ' ++ (fmt_time t).data) = (fmt_time t).data := by
  apply stripChars_spaces_token k
  · intro c hc
    obtain ⟨r, hr⟩ := fmt_time_head t
    rw [hr] at hc
    cases hc
    exact isDigit_not_pySpace (digitChar_isDigit (Nat.mod_lt _ (by omega)))
  · intro x hx
    obtain ⟨r, hr⟩ := fmt_time_last t
    rw [hr, List.getLast?_concat] at hx
    cases hx
    exact isDigit_not_pySpace (digitChar_isDigit (Nat.mod_lt _ (by omega)))

theorem parse_time_fmt (k : Nat) {t : DateTime} (hv : t.Valid) (now : DateTime) :
    parse_time (List.replicate k ' ' ++ (fmt_time t).data) now = .ok t := by
  apply parse_time_of_full
  rw [stripChars_spaces_fmt k t]
  exact parseFullTime_fmt hv

end Tyme

namespace Tyme

/-! ### Round-trip machinery: the duration parenthetical -/

theorem fmt_delta_data {n : Int} (h0 : 0 ≤ n) (h1 : n < 360000) :
    ∃ hh mm : Nat, hh < 100 ∧ mm < 100 ∧
      (fmt_delta n).data = '(' :: ((pad2 hh).data ++ (':' :: ((pad2 mm).data ++ [')']))) := by
  have hn : n = ((n.toNat : Nat) : Int) := (Int.toNat_of_nonneg h0).symm
  have hN1 : n.toNat < 360000 := by omega
  refine ⟨n.toNat / 3600, n.toNat / 60 % 60, by omega, by omega, ?_⟩
  have hdiv : Int.fdiv n 3600 = ((n.toNat / 3600 : Nat) : Int) := by
    rw [hn, Int.fdiv_eq_tdiv (by positivity) (by positivity)]
    exact (Int.ofNat_tdiv n.toNat 3600).symm
  have hdiv60 : Int.fdiv n 60 = ((n.toNat / 60 : Nat) : Int) := by
    rw [hn, Int.fdiv_eq_tdiv (by positivity) (by positivity)]
    exact (Int.ofNat_tdiv n.toNat 60).symm
  have hmod : Int.fmod (Int.fdiv n 60) 60 = ((n.toNat / 60 % 60 : Nat) : Int) := by
    rw [hdiv60]
    exact (Int.ofNat_fmod (n.toNat / 60) 60).symm
  have p1 : py02f (Int.fdiv n 3600) = pad2 (n.toNat / 3600) := by
    rw [hdiv]
    unfold py02f
    rw [if_pos ⟨by positivity, by exact_mod_cast (by omega : n.toNat / 3600 < 100)⟩]
    rw [Int.toNat_natCast]
  have p2 : py02f (Int.fmod (Int.fdiv n 60) 60) = pad2 (n.toNat / 60 % 60) := by
    rw [hmod]
    unfold py02f
    rw [if_pos ⟨by positivity, by exact_mod_cast (by omega : n.toNat / 60 % 60 < 100)⟩]
    rw [Int.toNat_natCast]
  show ("(" ++ py02f (Int.fdiv n 3600) ++ ":" ++ py02f (Int.fmod (Int.fdiv n 60) 60) ++ ")").data = _
  rw [p1, p2]
  have ho : ("(" : String).data = ['('] := rfl
  have hc : (")" : String).data = [')'] := rfl
  have hco : (":" : String).data = [':'] := rfl
  simp [String.data_append, ho, hc, hco]

theorem totalTimeScan_shape {hh mm : Nat} (rest : List Char) :
    totalTimeScan ('(' :: ((pad2 hh).data ++ (':' :: ((pad2 mm).data ++ (')' :: rest))))) =
      some rest := by
  rw [pad2_data hh, pad2_data mm]
  show totalTimeScan ('(' :: digitChar (hh / 10 % 10) :: digitChar (hh % 10) :: ':' ::
    digitChar (mm / 10 % 10) :: digitChar (mm % 10) :: ')' :: rest) = some rest
  unfold totalTimeScan
  simp [digitChar_isDigit (Nat.mod_lt _ (by omega : (0:Nat) < 10)),
    digitChar_isDigit (show hh / 10 % 10 < 10 from Nat.mod_lt _ (by omega)),
    digitChar_isDigit (show hh % 10 < 10 from Nat.mod_lt _ (by omega)),
    digitChar_isDigit (show mm / 10 % 10 < 10 from Nat.mod_lt _ (by omega)),
    digitChar_isDigit (show mm % 10 < 10 from Nat.mod_lt _ (by omega))]

theorem totalTimeScan_fmt_delta {n : Int} (h0 : 0 ≤ n) (h1 : n < 360000) (rest : List Char) :
    totalTimeScan ((fmt_delta n).data ++ rest) = some rest := by
  obtain ⟨hh, mm, hh1, mm1, hdata⟩ := fmt_delta_data h0 h1
  rw [hdata]
  have := @totalTimeScan_shape hh mm rest
  simpa using this

/-! ### Round-trip machinery: the task-name matcher -/

/-- A tail that blocks extension of a greedy task-name match: its first two
characters (when present) are not word characters. -/
def blockedTail (t : List Char) : Prop :=
  (∀ c, t.head? = some c → isWordChar c = false) ∧
    (∀ d, t.tail.head? = some d → isWordChar d = false)

theorem nameScan_nil_of_blocked {t : List Char} (h : blockedTail t) : nameScan t = [] := by
  obtain ⟨h1, h2⟩ := h
  cases t with
  | nil => rfl
  | cons c t' =>
      have hc := h1 c rfl
      unfold nameScan
      rw [hc]
      simp only [Bool.false_eq_true, if_false]
      by_cases hsp : c = ' '
      · rw [if_pos hsp]
        cases t' with
        | nil => rfl
        | cons d _ =>
            have hd := h2 d rfl
            simp [hd]
      · rw [if_neg hsp]

theorem nameScan_cons_word {c : Char} (hc : isWordChar c = true) (cs : List Char) :
    nameScan (c :: cs) = c :: nameScan cs := by
  simp [nameScan, hc]

theorem nameScan_cons_space {d : Char} (cs' : List Char) (hd : isWordChar d = true) :
    nameScan (' ' :: d :: cs') = ' ' :: nameScan (d :: cs') := by
  have hsp : isWordChar ' ' = false := rfl
  simp [nameScan, hsp, hd]

theorem nameScan_stop {n : List Char} (hg : goodNameCore n = true) (t : List Char)
    (ht : blockedTail t) : nameScan (n ++ t) = n := by
  induction n with
  | nil => cases hg
  | cons c n ih =>
      cases n with
      | nil =>
          have hc : isWordChar c = true := hg
          show nameScan (c :: ([] ++ t)) = [c]
          rw [List.nil_append, nameScan_cons_word hc, nameScan_nil_of_blocked ht]
      | cons d rest =>
          by_cases hc : isWordChar c = true
          · have hg' : goodNameCore (d :: rest) = true := by
              have h' := hg
              unfold goodNameCore at h'
              rwa [if_pos hc] at h'
            rw [List.cons_append, nameScan_cons_word hc, ih hg']
          · have hgc := hg
            unfold goodNameCore at hgc
            rw [if_neg hc] at hgc
            simp only [Bool.and_eq_true, decide_eq_true_eq] at hgc
            obtain ⟨⟨hsp, hd⟩, hg'⟩ := hgc
            subst hsp
            rw [List.cons_append, List.cons_append, nameScan_cons_space _ hd,
              ← List.cons_append, ih hg']

theorem matchName_good {name : List Char} (h2 : 2 ≤ name.length)
    (hg : goodNameCore name = true) (t : List Char) (ht : blockedTail t) :
    matchName (name ++ t) = some (name, t) := by
  unfold matchName
  simp only [nameScan_stop hg t ht]
  rw [if_pos h2, List.drop_left]

end Tyme

namespace Tyme

/-! ### Round-trip machinery: tags render and re-parse -/

theorem goodTag_facts {s : String} (h : goodTag s = true) :
    s.data ≠ [] ∧ (∀ c ∈ s.data, isTagChar c = true) ∧
      (∀ c, s.data.head? = some c → isWordChar c = true) ∧
      (∀ c, s.data.getLast? = some c → isWordChar c = true) ∧
      (∀ c ∈ s.data, c ≠ ',') := by
  unfold goodTag at h
  simp only [Bool.and_eq_true, Bool.not_eq_true', List.all_eq_true,
    Bool.or_eq_true, decide_eq_true_eq] at h
  obtain ⟨⟨⟨hne0, hall⟩, hhead⟩, hlast⟩ := h
  have hne : s.data ≠ [] := List.isEmpty_eq_false.mp hne0
  refine ⟨hne, ?_, ?_, ?_, ?_⟩
  · intro c hc
    rcases hall c hc with hw | hs
    · simp [isTagChar, hw]
    · simp [isTagChar, hs]
  · intro c hc
    cases hd : s.data with
    | nil => rw [hd] at hc; cases hc
    | cons x r =>
        rw [hd] at hc
        cases hc
        rw [hd] at hhead
        exact hhead
  · intro c hc
    cases hd : s.data.getLast? with
    | none => rw [hd] at hc; cases hc
    | some x =>
        rw [hd] at hc
        cases hc
        rw [hd] at hlast
        exact hlast
  · intro c hc hc'
    subst hc'
    rcases hall ',' hc with hw | hs
    · cases hw
    · cases hs

theorem pyJoin_tags_facts {tags : List String} (h : ∀ tg ∈ tags, goodTag tg = true)
    (hne : tags ≠ []) :
    (pyJoin ", " tags).data ≠ [] ∧
      (∀ c ∈ (pyJoin ", " tags).data, isTagChar c = true) ∧
      (∀ c, (pyJoin ", " tags).data.head? = some c → isWordChar c = true) ∧
      (∀ c, (pyJoin ", " tags).data.getLast? = some c → isWordChar c = true) := by
  induction tags with
  | nil => exact absurd rfl hne
  | cons t rest ih =>
      cases rest with
      | nil =>
          obtain ⟨h1, h2, h3, h4, _⟩ := goodTag_facts (h t (by simp))
          exact ⟨h1, h2, h3, h4⟩
      | cons t2 r2 =>
          obtain ⟨h1, h2, h3, h4, _⟩ := goodTag_facts (h t (by simp))
          obtain ⟨j1, j2, j3, j4⟩ := ih (fun tg htg => h tg (by simp [htg])) (by simp)
          have hdata : (pyJoin ", " (t :: t2 :: r2)).data =
              t.data ++ (',' :: ' ' :: (pyJoin ", " (t2 :: r2)).data) := by
            show (t ++ ", " ++ pyJoin ", " (t2 :: r2)).data = _
            simp [String.data_append]
          rw [hdata]
          refine ⟨by simp [h1], ?_, ?_, ?_⟩
          · intro c hc
            rcases List.mem_append.mp hc with hc | hc
            · exact h2 c hc
            · rcases List.mem_cons.mp hc with hc | hc
              · subst hc; rfl
              · rcases List.mem_cons.mp hc with hc | hc
                · subst hc; rfl
                · exact j2 c hc
          · intro c hc
            rw [List.head?_append_of_ne_nil _ h1] at hc
            exact h3 c hc
          · intro c hc
            rw [List.getLast?_append_of_ne_nil _ (by simp)] at hc
            simp only [List.getLast?_cons_cons] at hc
            cases hj : (pyJoin ", " (t2 :: r2)).data with
            | nil => exact absurd hj j1
            | cons x r =>
                rw [hj] at hc
                apply j4
                rw [hj]
                exact hc

theorem tagsCore_of_good {T : List Char} (hall : ∀ c ∈ T, isTagChar c = true)
    (hlast : ∀ c, T.getLast? = some c → isWordChar c = true) (t : List Char)
    (ht : ∀ c, t.head? = some c → isTagChar c = false) :
    tagsCore (T ++ t) = T := by
  unfold tagsCore
  rw [takeWhile_append_all_not t hall ht]
  rcases List.eq_nil_or_concat T with h0 | ⟨a, x, hx⟩
  · subst h0; rfl
  · rw [List.concat_eq_append] at hx
    subst hx
    rw [List.reverse_append]
    have hx : isWordChar x = true := hlast x (List.getLast?_concat a)
    simp [List.dropWhile_cons, hx]

theorem splitCS_cons_ne {c : Char} (hc : c ≠ ',') (r : List Char) :
    splitCommaSpace (c :: r) =
      (match splitCommaSpace r with
       | l :: ls => (c :: l) :: ls
       | [] => [[c]]) := by
  conv_lhs => rw [splitCommaSpace.eq_def]
  split
  · next heq => simp at heq
  · next y heq =>
      injection heq with h1 _
      exact absurd h1 hc
  · next c2 r2 _ heq =>
      injection heq with h1 h2
      subst h1
      subst h2
      rfl

theorem splitCS_sep (r : List Char) :
    splitCommaSpace (',' :: ' ' :: r) = [] :: splitCommaSpace r := by
  conv_lhs => rw [splitCommaSpace.eq_def]
  split
  · next heq => simp at heq
  · next y heq =>
      injection heq with _ h2
      injection h2 with _ h3
      subst h3
      rfl
  · next c2 r2 hni heq =>
      injection heq with h1 h2
      exact (hni r h1.symm h2.symm).elim

theorem splitCS_no_comma {cs : List Char} (h : ∀ c ∈ cs, c ≠ ',') :
    splitCommaSpace cs = [cs] := by
  induction cs with
  | nil => rfl
  | cons c r ih =>
      rw [splitCS_cons_ne (h c (by simp))]
      simp only [ih (fun d hd => h d (by simp [hd]))]

theorem splitCS_append_sep {a : List Char} (b : List Char) (h : ∀ c ∈ a, c ≠ ',') :
    splitCommaSpace (a ++ ',' :: ' ' :: b) = a :: splitCommaSpace b := by
  induction a with
  | nil => rw [List.nil_append, splitCS_sep]
  | cons c a' ih =>
      rw [List.cons_append, splitCS_cons_ne (h c (by simp))]
      simp only [ih (fun d hd => h d (by simp [hd]))]

end Tyme

namespace Tyme

theorem mk_data (s : String) : String.mk s.data = s := rfl

theorem splitCS_join {tags : List String} (h : ∀ tg ∈ tags, goodTag tg = true)
    (hne : tags ≠ []) :
    splitCommaSpace (pyJoin ", " tags).data = tags.map String.data := by
  induction tags with
  | nil => exact absurd rfl hne
  | cons t rest ih =>
      cases rest with
      | nil =>
          show splitCommaSpace t.data = [t.data]
          exact splitCS_no_comma (goodTag_facts (h t (by simp))).2.2.2.2
      | cons t2 r2 =>
          have hdata : (pyJoin ", " (t :: t2 :: r2)).data =
              t.data ++ ',' :: ' ' :: (pyJoin ", " (t2 :: r2)).data := by
            show (t ++ ", " ++ pyJoin ", " (t2 :: r2)).data = _
            simp [String.data_append]
          rw [hdata, splitCS_append_sep _ (goodTag_facts (h t (by simp))).2.2.2.2,
            ih (fun tg htg => h tg (by simp [htg])) (by simp)]
          rfl

theorem getLast?_replicate_space {k : Nat} (hk : 1 ≤ k) :
    (List.replicate k ' ').getLast? = some ' ' := by
  cases k with
  | zero => omega
  | succ k => rw [List.replicate_succ', List.getLast?_concat]

theorem stripChars_spaces_tags {tags : List String} (h : ∀ tg ∈ tags, goodTag tg = true)
    (hne : tags ≠ []) (k : Nat) :
    stripChars (List.replicate k ' ' ++ (pyJoin ", " tags).data) =
      (pyJoin ", " tags).data := by
  obtain ⟨Tne, _, Thead, Tlast⟩ := pyJoin_tags_facts h hne
  apply stripChars_spaces_token k
  · intro c hc
    exact wordChar_not_pySpace (Thead c hc)
  · intro x hx
    exact wordChar_not_pySpace (Tlast x hx)

theorem matchWsTags_good {tags : List String} (h : ∀ tg ∈ tags, goodTag tg = true)
    (hne : tags ≠ []) (k : Nat) (hk : 3 ≤ k) :
    matchWsTags (List.replicate k ' ' ++ ((pyJoin ", " tags).data ++ ['\n'])) =
      some (List.replicate k ' ' ++ (pyJoin ", " tags).data) := by
  obtain ⟨Tne, Tall, Thead, Tlast⟩ := pyJoin_tags_facts h hne
  have hw : wsCount (List.replicate k ' ' ++ ((pyJoin ", " tags).data ++ ['\n'])) = k := by
    apply wsCount_replicate
    intro c hc
    rw [List.head?_append_of_ne_nil _ Tne] at hc
    exact wordChar_not_pySpace (Thead c hc)
  have hcore : tagsCore ((pyJoin ", " tags).data ++ ['\n']) = (pyJoin ", " tags).data := by
    apply tagsCore_of_good Tall Tlast
    intro c hc
    cases hc
    rfl
  unfold matchWsTags
  simp only [hw, drop_replicate, hcore, take_replicate]
  rw [if_neg (by omega)]
  by_cases hlen : 2 ≤ (pyJoin ", " tags).data.length
  · rw [if_pos hlen]
  · rw [if_neg hlen]
    have h1 : (pyJoin ", " tags).data.length = 1 := by
      cases he : (pyJoin ", " tags).data with
      | nil => exact absurd he Tne
      | cons x r =>
          rw [he] at hlen
          simp at hlen
          simp [he, hlen]
    rw [if_pos]
    simp only [h1, Bool.and_eq_true, decide_eq_true_eq, beq_iff_eq]
    exact ⟨⟨by trivial, hk⟩, getLast?_replicate_space (by omega)⟩

theorem matchDate_none_no_dash {cs : List Char} (h : ∀ c ∈ cs, c ≠ '-') :
    matchDate cs = none := by
  by_cases he : (digitsScan cs).isEmpty = true
  · unfold matchDate
    simp [he]
  · unfold matchDate
    simp only [Bool.not_eq_true] at he
    simp only [he, Bool.false_eq_true, if_false]
    split
    · next r1 heq =>
        exfalso
        have hm : '-' ∈ cs := by
          have hsub : cs.drop (digitsScan cs).length ⊆ cs := List.drop_subset ..
          apply hsub
          rw [heq]
          simp
        exact h '-' hm rfl
    · rfl

theorem matchWsDate_none_of_tags {tags : List String} (h : ∀ tg ∈ tags, goodTag tg = true)
    (hne : tags ≠ []) (k : Nat) :
    matchWsDate (List.replicate k ' ' ++ ((pyJoin ", " tags).data ++ ['\n'])) = none := by
  obtain ⟨Tne, Tall, Thead, _⟩ := pyJoin_tags_facts h hne
  have hw : wsCount (List.replicate k ' ' ++ ((pyJoin ", " tags).data ++ ['\n'])) = k := by
    apply wsCount_replicate
    intro c hc
    rw [List.head?_append_of_ne_nil _ Tne] at hc
    exact wordChar_not_pySpace (Thead c hc)
  have hmd : matchDate ((pyJoin ", " tags).data ++ ['\n']) = none := by
    apply matchDate_none_no_dash
    intro c hc hc'
    subst hc'
    rcases List.mem_append.mp hc with hc | hc
    · exact absurd (Tall '-' hc) (by decide)
    · simp at hc
  unfold matchWsDate
  simp only [hw, drop_replicate, hmd]
  by_cases hk2 : k < 2
  · rw [if_pos hk2]
  · rw [if_neg hk2]

end Tyme

namespace Tyme

/-! ### Round-trip machinery: name grammar facts and line-strip helpers -/

theorem goodNameCore_last {n : List Char} (h : goodNameCore n = true) :
    ∀ c, n.getLast? = some c → isWordChar c = true := by
  induction n with
  | nil => cases h
  | cons c n ih =>
      cases n with
      | nil =>
          intro x hx
          cases hx
          exact h
      | cons d rest =>
          intro x hx
          rw [List.getLast?_cons_cons] at hx
          have hg' : goodNameCore (d :: rest) = true := by
            have h' := h
            unfold goodNameCore at h'
            by_cases hc : isWordChar c = true
            · rwa [if_pos hc] at h'
            · rw [if_neg hc] at h'
              simp only [Bool.and_eq_true] at h'
              exact h'.2
          exact ih hg' x hx

theorem goodNameCore_chars {n : List Char} (h : goodNameCore n = true) :
    ∀ c ∈ n, isWordChar c = true ∨ c = ' ' := by
  induction n with
  | nil => cases h
  | cons c n ih =>
      cases n with
      | nil =>
          intro x hx
          rcases List.mem_cons.mp hx with hx | hx
          · subst hx; exact Or.inl h
          · cases hx
      | cons d rest =>
          have h' := h
          unfold goodNameCore at h'
          intro x hx
          rcases List.mem_cons.mp hx with hx | hx
          · subst hx
            by_cases hc : isWordChar x = true
            · exact Or.inl hc
            · rw [if_neg hc] at h'
              simp only [Bool.and_eq_true, decide_eq_true_eq] at h'
              exact Or.inr h'.1.1
          · by_cases hc : isWordChar c = true
            · rw [if_pos hc] at h'
              exact ih h' x hx
            · rw [if_neg hc] at h'
              simp only [Bool.and_eq_true, decide_eq_true_eq] at h'
              exact ih h'.2 x hx

theorem goodName_facts {s : String} (h : goodName s = true) :
    s.data ≠ [] ∧ goodNameCore s.data = true ∧ 2 ≤ s.data.length ∧
      (∀ c, s.data.head? = some c → isWordChar c = true) ∧
      (∀ c, s.data.getLast? = some c → isWordChar c = true) ∧
      (∀ c ∈ s.data, isWordChar c = true ∨ c = ' ') := by
  unfold goodName at h
  simp only [Bool.and_eq_true, decide_eq_true_eq] at h
  obtain ⟨⟨hhead, hcore⟩, hlen⟩ := h
  have hne : s.data ≠ [] := by
    cases hd : s.data
    · rw [hd] at hhead; cases hhead
    · simp
  refine ⟨hne, hcore, hlen, ?_, goodNameCore_last hcore, goodNameCore_chars hcore⟩
  intro c hc
  cases hd : s.data with
  | nil => rw [hd] at hc; cases hc
  | cons x r =>
      rw [hd] at hc
      cases hc
      rw [hd] at hhead
      exact hhead

theorem stripChars_eq_stripRight {cs : List Char}
    (h : ∀ c, cs.head? = some c → isPySpace c = false) : stripChars cs = stripRight cs := by
  cases cs with
  | nil => rfl
  | cons c r => exact stripChars_head_not (h c rfl)

theorem padRight_eq_self {w : Nat} {s : String} (h : w ≤ s.length) : padRight w s = s := by
  unfold padRight
  rw [Nat.sub_eq_zero_of_le h]
  show s ++ "" = s
  simp

theorem fmt_time_length (t : DateTime) : (fmt_time t).length = 11 := by
  show (fmt_time t).data.length = 11
  rw [fmt_time_data]
  simp [pad2_data]

theorem matchWsDate_fmt {d : DateTime} (hv : d.Valid) (k : Nat) (hk : 2 ≤ k)
    (rest : List Char) :
    matchWsDate (List.replicate k ' ' ++ ((fmt_time d).data ++ rest)) =
      some (List.replicate k ' ' ++ (fmt_time d).data, rest) := by
  have hw : wsCount (List.replicate k ' ' ++ ((fmt_time d).data ++ rest)) = k := by
    apply wsCount_replicate
    intro c hc
    obtain ⟨r, hr⟩ := fmt_time_head d
    rw [List.head?_append_of_ne_nil _ (by rw [hr]; simp)] at hc
    rw [hr] at hc
    cases hc
    exact isDigit_not_pySpace (digitChar_isDigit (Nat.mod_lt _ (by omega)))
  unfold matchWsDate
  simp only [hw, drop_replicate, matchDate_fmt hv rest, take_replicate]
  rw [if_neg (by omega)]

theorem matchWsDate_newline : matchWsDate ['\n'] = none := by decide

theorem matchWsTags_newline : matchWsTags ['\n'] = none := by decide

end Tyme

namespace Tyme

theorem dropWhile_append_gen {p : Char → Bool} (a b : List Char) :
    List.dropWhile p (a ++ b) =
      (if List.dropWhile p a = [] then List.dropWhile p b else List.dropWhile p a ++ b) := by
  induction a with
  | nil => simp
  | cons c a' ih =>
      rw [List.cons_append, List.dropWhile_cons, List.dropWhile_cons]
      by_cases hc : p c = true
      · rw [if_pos hc, if_pos hc, ih]
      · rw [if_neg hc, if_neg hc, if_neg (by simp), List.cons_append]

theorem stripRight_append (x y : List Char) :
    stripRight (x ++ y) = (if stripRight y = [] then stripRight x else x ++ stripRight y) := by
  unfold stripRight
  rw [List.reverse_append, dropWhile_append_gen]
  by_cases hy : List.dropWhile isPySpace y.reverse = []
  · rw [if_pos hy, if_pos (by rw [hy]; rfl)]
  · rw [if_neg hy, if_neg (by simpa using hy)]
    simp

theorem stripRight_spaces (k : Nat) : stripRight (List.replicate k ' ') = [] := by
  have := @stripRight_append_spaces (List.replicate k ' ') []
    (fun c hc => by rw [List.eq_of_mem_replicate hc]; rfl)
  simpa using this

theorem map_mk_data (l : List String) : (l.map String.data).map String.mk = l := by
  induction l with
  | nil => rfl
  | cons x r ih => simp [ih, mk_data]

end Tyme

namespace Tyme

theorem data_mk (l : List Char) : (String.mk l).data = l := rfl

theorem blockedTail_spaces {k : Nat} (hk : 2 ≤ k) (X : List Char) :
    blockedTail (List.replicate k ' ' ++ X) := by
  obtain ⟨m, rfl⟩ : ∃ m, k = m + 2 := ⟨k - 2, by omega⟩
  rw [show m + 2 = (m + 1) + 1 from rfl, List.replicate_succ, List.replicate_succ,
    List.cons_append, List.cons_append]
  exact ⟨fun c hc => by cases hc; decide, fun d hd => by cases hd; decide⟩

theorem blockedTail_nl : blockedTail ['\n'] :=
  ⟨fun c hc => by cases hc; decide, fun d hd => by cases hd⟩

theorem task_round_trip {t : Task} {s : TymeSheet} {now : DateTime}
    (hg : goodName t.name = true)
    (htags : ∀ tg ∈ t.tags, goodTag tg = true)
    (hdl : validOpt t.deadline)
    (hd0 : 0 ≤ t.timeSecs s now) (hd1 : t.timeSecs s now < 360000) :
    Task.from_string ((t.to_string s now).data ++ ['\n']) now = .ok t := by
  obtain ⟨Nne, Ncore, Nlen, Nhead, Nlast, Nchars⟩ := goodName_facts hg
  obtain ⟨hh, mm, hh1, mm1, hA⟩ := fmt_delta_data hd0 hd1
  have hscanA : ∀ x, totalTimeScan ((fmt_delta (t.timeSecs s now)).data ++ x) = some x :=
    totalTimeScan_fmt_delta hd0 hd1
  have hsp3 : ("   " : String).data = List.replicate 3 ' ' := rfl
  have hjoin : ∀ a b c d : String, (pyJoin "   " [a, b, c, d]).data =
      a.data ++ (List.replicate 3 ' ' ++ (b.data ++ (List.replicate 3 ' ' ++
        (c.data ++ (List.replicate 3 ' ' ++ d.data))))) := by
    intro a b c d
    simp [pyJoin, String.data_append, hsp3]
  have hpadname : (padRight 20 t.name).data =
      t.name.data ++ List.replicate (20 - t.name.length) ' ' := by
    unfold padRight
    rw [String.data_append, data_mk]
  have hheadA : ∀ X c, ((fmt_delta (t.timeSecs s now)).data ++ X).head? = some c →
      isPySpace c = false := by
    intro X c hc
    rw [hA, List.cons_append] at hc
    cases hc
    decide
  have hN2 : wsCount (List.replicate 3 ' ' ++ (t.name.data ++
      ((fmt_delta (t.timeSecs s now)).data))) = 3 := by
    apply wsCount_replicate
    intro c hc
    rw [List.head?_append_of_ne_nil _ Nne] at hc
    exact wordChar_not_pySpace (Nhead c hc)
  cases htd : t.deadline with
  | some d =>
      have hdv : d.Valid := by rw [htd] at hdl; exact hdl
      by_cases htg : t.tags = []
      · -- deadline present, no tags: the rendered line ends right after the deadline
        have hline : (t.to_string s now).data =
            (fmt_delta (t.timeSecs s now)).data ++ (List.replicate 3 ' ' ++
              (t.name.data ++ (List.replicate (20 - t.name.length + 3) ' ' ++
                (fmt_time d).data))) := by
          unfold Task.to_string
          rw [htd, htg]
          show stripChars (pyJoin "   " [fmt_delta (t.timeSecs s now), padRight 20 t.name,
            padRight 11 (fmt_time d), pyJoin ", " []]).data = _
          rw [padRight_eq_self (le_of_eq (fmt_time_length d).symm)]
          rw [hjoin, hpadname]
          show stripChars _ = _
          have harg : (fmt_delta (t.timeSecs s now)).data ++ (List.replicate 3 ' ' ++
              ((t.name.data ++ List.replicate (20 - t.name.length) ' ') ++
                (List.replicate 3 ' ' ++ ((fmt_time d).data ++
                  (List.replicate 3 ' ' ++ (pyJoin ", " ([] : List String)).data))))) =
              (fmt_delta (t.timeSecs s now)).data ++ (List.replicate 3 ' ' ++
                (t.name.data ++ (List.replicate (20 - t.name.length + 3) ' ' ++
                  ((fmt_time d).data ++ List.replicate 3 ' ')))) := by
            show _ ++ (_ ++ ((_ ++ _) ++ (_ ++ (_ ++ (_ ++ ([] : List Char)))))) = _
            rw [List.append_nil, List.replicate_add]
            simp [List.append_assoc]
          rw [harg]
          -- strip: nothing on the left, the trailing space run on the right
          rw [stripChars_eq_stripRight (hheadA _)]
          have hFstrip : stripRight (fmt_time d).data = (fmt_time d).data := by
            apply stripRight_no_trailing
            intro x hx
            obtain ⟨r, hr⟩ := fmt_time_last d
            rw [hr, List.getLast?_concat] at hx
            cases hx
            exact isDigit_not_pySpace (digitChar_isDigit (Nat.mod_lt _ (by omega)))
          have hFne : (fmt_time d).data ≠ [] := by
            obtain ⟨r, hr⟩ := fmt_time_head d
            rw [hr]
            simp
          have s1 : stripRight ((fmt_time d).data ++ List.replicate 3 ' ') =
              (fmt_time d).data := by
            rw [stripRight_append, if_pos (stripRight_spaces 3)]
            exact hFstrip
          have s2 : stripRight (List.replicate (20 - t.name.length + 3) ' ' ++
              ((fmt_time d).data ++ List.replicate 3 ' ')) =
              List.replicate (20 - t.name.length + 3) ' ' ++ (fmt_time d).data := by
            rw [stripRight_append, if_neg (by rw [s1]; exact hFne), s1]
          have s3 : stripRight (t.name.data ++ (List.replicate (20 - t.name.length + 3) ' ' ++
              ((fmt_time d).data ++ List.replicate 3 ' '))) =
              t.name.data ++ (List.replicate (20 - t.name.length + 3) ' ' ++
                (fmt_time d).data) := by
            rw [stripRight_append, if_neg (by rw [s2]; simp [hFne]), s2]
          have s4 : stripRight (List.replicate 3 ' ' ++ (t.name.data ++
              (List.replicate (20 - t.name.length + 3) ' ' ++
                ((fmt_time d).data ++ List.replicate 3 ' ')))) =
              List.replicate 3 ' ' ++ (t.name.data ++
                (List.replicate (20 - t.name.length + 3) ' ' ++ (fmt_time d).data)) := by
            rw [stripRight_append, if_neg (by rw [s3]; simp [Nne]), s3]
          rw [stripRight_append, if_neg (by rw [s4]; simp), s4]
        rw [hline]
        simp only [List.append_assoc]
        unfold Task.from_string
        have h2 : wsCount (List.replicate 3 ' ' ++ (t.name.data ++
            (List.replicate (20 - t.name.length + 3) ' ' ++ ((fmt_time d).data ++ ['\n'])))) =
            3 := by
          apply wsCount_replicate
          intro c hc
          rw [List.head?_append_of_ne_nil _ Nne] at hc
          exact wordChar_not_pySpace (Nhead c hc)
        have h4 : matchName (t.name.data ++ (List.replicate (20 - t.name.length + 3) ' ' ++
            ((fmt_time d).data ++ ['\n']))) =
            some (t.name.data, List.replicate (20 - t.name.length + 3) ' ' ++
              ((fmt_time d).data ++ ['\n'])) :=
          matchName_good Nlen Ncore _ (blockedTail_spaces (by omega) _)
        have h5 := matchWsDate_fmt hdv (20 - t.name.length + 3) (by omega) ['\n']
        have h9 := parse_time_fmt (20 - t.name.length + 3) hdv now
        simp only [hscanA, h2, drop_replicate, h4, h5, matchWsTags_newline, h9, mk_data]
        rw [← htd, ← htg]
      · -- deadline present, with tags
        obtain ⟨Tne, Tall, Thead, Tlast⟩ := pyJoin_tags_facts htags htg
        have hline : (t.to_string s now).data =
            (fmt_delta (t.timeSecs s now)).data ++ (List.replicate 3 ' ' ++
              (t.name.data ++ (List.replicate (20 - t.name.length + 3) ' ' ++
                ((fmt_time d).data ++ (List.replicate 3 ' ' ++
                  (pyJoin ", " t.tags).data))))) := by
          unfold Task.to_string
          rw [htd]
          show stripChars (pyJoin "   " [fmt_delta (t.timeSecs s now), padRight 20 t.name,
            padRight 11 (fmt_time d), pyJoin ", " t.tags]).data = _
          rw [padRight_eq_self (le_of_eq (fmt_time_length d).symm)]
          rw [hjoin, hpadname]
          have harg : (fmt_delta (t.timeSecs s now)).data ++ (List.replicate 3 ' ' ++
              ((t.name.data ++ List.replicate (20 - t.name.length) ' ') ++
                (List.replicate 3 ' ' ++ ((fmt_time d).data ++
                  (List.replicate 3 ' ' ++ (pyJoin ", " t.tags).data))))) =
              (fmt_delta (t.timeSecs s now)).data ++ (List.replicate 3 ' ' ++
                (t.name.data ++ (List.replicate (20 - t.name.length + 3) ' ' ++
                  ((fmt_time d).data ++ (List.replicate 3 ' ' ++
                    (pyJoin ", " t.tags).data))))) := by
            rw [List.replicate_add]
            simp [List.append_assoc]
          rw [harg]
          rw [stripChars_eq_stripRight (hheadA _)]
          apply stripRight_no_trailing
          intro x hx
          rw [List.getLast?_append_of_ne_nil _ (by simp [Tne]),
            List.getLast?_append_of_ne_nil _ (by simp [Tne]),
            List.getLast?_append_of_ne_nil _ (by simp [Tne]),
            List.getLast?_append_of_ne_nil _ (by simp [Tne]),
            List.getLast?_append_of_ne_nil _ (by simp [Tne]),
            List.getLast?_append_of_ne_nil _ Tne] at hx
          exact wordChar_not_pySpace (Tlast x hx)
        rw [hline]
        simp only [List.append_assoc]
        unfold Task.from_string
        have h2 : wsCount (List.replicate 3 ' ' ++ (t.name.data ++
            (List.replicate (20 - t.name.length + 3) ' ' ++ ((fmt_time d).data ++
              (List.replicate 3 ' ' ++ ((pyJoin ", " t.tags).data ++ ['\n'])))))) = 3 := by
          apply wsCount_replicate
          intro c hc
          rw [List.head?_append_of_ne_nil _ Nne] at hc
          exact wordChar_not_pySpace (Nhead c hc)
        have h4 : matchName (t.name.data ++ (List.replicate (20 - t.name.length + 3) ' ' ++
            ((fmt_time d).data ++ (List.replicate 3 ' ' ++
              ((pyJoin ", " t.tags).data ++ ['\n']))))) =
            some (t.name.data, List.replicate (20 - t.name.length + 3) ' ' ++
              ((fmt_time d).data ++ (List.replicate 3 ' ' ++
                ((pyJoin ", " t.tags).data ++ ['\n'])))) :=
          matchName_good Nlen Ncore _ (blockedTail_spaces (by omega) _)
        have h5 := matchWsDate_fmt hdv (20 - t.name.length + 3) (by omega)
          (List.replicate 3 ' ' ++ ((pyJoin ", " t.tags).data ++ ['\n']))
        have h6 := matchWsTags_good htags htg 3 (by omega)
        have h7 := stripChars_spaces_tags htags htg 3
        have h8 := splitCS_join htags htg
        have h9 := parse_time_fmt (20 - t.name.length + 3) hdv now
        simp only [hscanA, h2, drop_replicate, h4, h5, h6, h7, h8, map_mk_data, h9, mk_data]
        rw [← htd]
  | none =>
      by_cases htg : t.tags = []
      · -- no deadline, no tags: the line is duration and name only
        have hline : (t.to_string s now).data =
            (fmt_delta (t.timeSecs s now)).data ++ (List.replicate 3 ' ' ++ t.name.data) := by
          unfold Task.to_string
          rw [htd, htg]
          show stripChars (pyJoin "   " [fmt_delta (t.timeSecs s now), padRight 20 t.name,
            padRight 11 "", pyJoin ", " []]).data = _
          rw [hjoin, hpadname]
          have harg : (fmt_delta (t.timeSecs s now)).data ++ (List.replicate 3 ' ' ++
              ((t.name.data ++ List.replicate (20 - t.name.length) ' ') ++
                (List.replicate 3 ' ' ++ ((padRight 11 "").data ++
                  (List.replicate 3 ' ' ++ (pyJoin ", " ([] : List String)).data))))) =
              (fmt_delta (t.timeSecs s now)).data ++ (List.replicate 3 ' ' ++
                (t.name.data ++ (List.replicate (20 - t.name.length) ' ' ++
                  (List.replicate 3 ' ' ++ (List.replicate 11 ' ' ++
                    List.replicate 3 ' '))))) := by
            have hp11 : (padRight 11 "").data = List.replicate 11 ' ' := rfl
            rw [hp11]
            show _ ++ (_ ++ ((_ ++ _) ++ (_ ++ (_ ++ (_ ++ ([] : List Char)))))) = _
            rw [List.append_nil]
            simp [List.append_assoc]
          rw [harg]
          rw [stripChars_eq_stripRight (hheadA _)]
          have hNstrip : stripRight t.name.data = t.name.data :=
            stripRight_no_trailing (fun x hx => wordChar_not_pySpace (Nlast x hx))
          have u1 : stripRight (List.replicate 11 ' ' ++ List.replicate 3 ' ') = [] := by
            rw [stripRight_append, if_pos (stripRight_spaces 3)]
            exact stripRight_spaces 11
          have u2 : stripRight (List.replicate 3 ' ' ++ (List.replicate 11 ' ' ++
              List.replicate 3 ' ')) = [] := by
            rw [stripRight_append, if_pos u1]
            exact stripRight_spaces 3
          have u3 : stripRight (List.replicate (20 - t.name.length) ' ' ++
              (List.replicate 3 ' ' ++ (List.replicate 11 ' ' ++ List.replicate 3 ' '))) =
              [] := by
            rw [stripRight_append, if_pos u2]
            exact stripRight_spaces (20 - t.name.length)
          have u4 : stripRight (t.name.data ++ (List.replicate (20 - t.name.length) ' ' ++
              (List.replicate 3 ' ' ++ (List.replicate 11 ' ' ++ List.replicate 3 ' ')))) =
              t.name.data := by
            rw [stripRight_append, if_pos u3]
            exact hNstrip
          have u5 : stripRight (List.replicate 3 ' ' ++ (t.name.data ++
              (List.replicate (20 - t.name.length) ' ' ++ (List.replicate 3 ' ' ++
                (List.replicate 11 ' ' ++ List.replicate 3 ' '))))) =
              List.replicate 3 ' ' ++ t.name.data := by
            rw [stripRight_append, if_neg (by rw [u4]; exact Nne), u4]
          rw [stripRight_append, if_neg (by rw [u5]; simp), u5]
        rw [hline]
        simp only [List.append_assoc]
        unfold Task.from_string
        have h2 : wsCount (List.replicate 3 ' ' ++ (t.name.data ++ ['\n'])) = 3 := by
          apply wsCount_replicate
          intro c hc
          rw [List.head?_append_of_ne_nil _ Nne] at hc
          exact wordChar_not_pySpace (Nhead c hc)
        have h4 : matchName (t.name.data ++ ['\n']) = some (t.name.data, ['\n']) :=
          matchName_good Nlen Ncore _ blockedTail_nl
        simp only [hscanA, h2, drop_replicate, h4, matchWsDate_newline, matchWsTags_newline,
          mk_data]
        rw [← htd, ← htg]
      · -- no deadline, with tags: the deadline column is blank spaces
        obtain ⟨Tne, Tall, Thead, Tlast⟩ := pyJoin_tags_facts htags htg
        have hline : (t.to_string s now).data =
            (fmt_delta (t.timeSecs s now)).data ++ (List.replicate 3 ' ' ++
              (t.name.data ++ (List.replicate (20 - t.name.length + 17) ' ' ++
                (pyJoin ", " t.tags).data))) := by
          unfold Task.to_string
          rw [htd]
          show stripChars (pyJoin "   " [fmt_delta (t.timeSecs s now), padRight 20 t.name,
            padRight 11 "", pyJoin ", " t.tags]).data = _
          rw [hjoin, hpadname]
          have harg : (fmt_delta (t.timeSecs s now)).data ++ (List.replicate 3 ' ' ++
              ((t.name.data ++ List.replicate (20 - t.name.length) ' ') ++
                (List.replicate 3 ' ' ++ ((padRight 11 "").data ++
                  (List.replicate 3 ' ' ++ (pyJoin ", " t.tags).data))))) =
              (fmt_delta (t.timeSecs s now)).data ++ (List.replicate 3 ' ' ++
                (t.name.data ++ (List.replicate (20 - t.name.length + 17) ' ' ++
                  (pyJoin ", " t.tags).data))) := by
            have hp11 : (padRight 11 "").data = List.replicate 11 ' ' := rfl
            rw [hp11]
            rw [show 20 - t.name.length + 17 = 20 - t.name.length + (3 + (11 + 3)) from by omega]
            rw [List.replicate_add, List.replicate_add, List.replicate_add]
            simp [List.append_assoc]
          rw [harg]
          rw [stripChars_eq_stripRight (hheadA _)]
          apply stripRight_no_trailing
          intro x hx
          rw [List.getLast?_append_of_ne_nil _ (by simp [Tne]),
            List.getLast?_append_of_ne_nil _ (by simp [Tne]),
            List.getLast?_append_of_ne_nil _ (by simp [Tne]),
            List.getLast?_append_of_ne_nil _ Tne] at hx
          exact wordChar_not_pySpace (Tlast x hx)
        rw [hline]
        simp only [List.append_assoc]
        unfold Task.from_string
        have h2 : wsCount (List.replicate 3 ' ' ++ (t.name.data ++
            (List.replicate (20 - t.name.length + 17) ' ' ++
              ((pyJoin ", " t.tags).data ++ ['\n'])))) = 3 := by
          apply wsCount_replicate
          intro c hc
          rw [List.head?_append_of_ne_nil _ Nne] at hc
          exact wordChar_not_pySpace (Nhead c hc)
        have h4 : matchName (t.name.data ++ (List.replicate (20 - t.name.length + 17) ' ' ++
            ((pyJoin ", " t.tags).data ++ ['\n']))) =
            some (t.name.data, List.replicate (20 - t.name.length + 17) ' ' ++
              ((pyJoin ", " t.tags).data ++ ['\n'])) :=
          matchName_good Nlen Ncore _ (blockedTail_spaces (by omega) _)
        have h5 := matchWsDate_none_of_tags htags htg (20 - t.name.length + 17)
        have h6 := matchWsTags_good htags htg (20 - t.name.length + 17) (by omega)
        have h7 := stripChars_spaces_tags htags htg (20 - t.name.length + 17)
        have h8 := splitCS_join htags htg
        simp only [hscanA, h2, drop_replicate, h4, h5, h6, h7, h8, map_mk_data, mk_data]
        rw [← htd]

end Tyme

namespace Tyme

theorem parse_time_fmt0 {t : DateTime} (hv : t.Valid) (now : DateTime) :
    parse_time (fmt_time t).data now = .ok t := by
  simpa using parse_time_fmt 0 hv now

theorem entry_round_trip {e : Entry} {now : DateTime}
    (hg : goodName e.task = true) (hsv : e.start.Valid) (hev : validOpt e.stop)
    (hd0 : 0 ≤ e.timeSecs now) (hd1 : e.timeSecs now < 360000) :
    Entry.from_string ((e.toLine now).data ++ ['\n']) now = .ok e := by
  obtain ⟨Nne, Ncore, Nlen, Nhead, Nlast, Nchars⟩ := goodName_facts hg
  have hscanA : ∀ x, totalTimeScan ((fmt_delta (e.timeSecs now)).data ++ x) = some x :=
    totalTimeScan_fmt_delta hd0 hd1
  have hsp3 : ("   " : String).data = List.replicate 3 ' ' := rfl
  have hjoin : ∀ a b c d : String, (pyJoin "   " [a, b, c, d]).data =
      a.data ++ (List.replicate 3 ' ' ++ (b.data ++ (List.replicate 3 ' ' ++
        (c.data ++ (List.replicate 3 ' ' ++ d.data))))) := by
    intro a b c d
    simp [pyJoin, String.data_append, hsp3]
  have hpadname : (padRight 20 e.task).data =
      e.task.data ++ List.replicate (20 - e.task.length) ' ' := by
    unfold padRight
    rw [String.data_append, data_mk]
  have hkcond : ¬ (20 - e.task.length + 3 < 2) := by omega
  have hk2cond : ¬ ((3 : Nat) < 2) := by omega
  have hpt : parse_time (fmt_time e.start).data now = .ok e.start := parse_time_fmt0 hsv now
  cases hstop : e.stop with
  | none =>
      have hline : (e.toLine now).data =
          (fmt_delta (e.timeSecs now)).data ++ (List.replicate 3 ' ' ++
            (e.task.data ++ (List.replicate (20 - e.task.length + 3) ' ' ++
              ((fmt_time e.start).data ++ (List.replicate 3 ' ' ++ ['-', '-']))))) := by
        unfold Entry.toLine
        rw [hstop]
        rw [hjoin, hpadname]
        have hdd : ("--" : String).data = ['-', '-'] := rfl
        rw [hdd, List.replicate_add]
        simp [List.append_assoc]
      rw [hline]
      simp only [List.append_assoc]
      unfold Entry.from_string
      have h2 : wsCount (List.replicate 3 ' ' ++ (e.task.data ++
          (List.replicate (20 - e.task.length + 3) ' ' ++ ((fmt_time e.start).data ++
            (List.replicate 3 ' ' ++ (['-', '-'] ++ ['\n'])))))) = 3 := by
        apply wsCount_replicate
        intro c hc
        rw [List.head?_append_of_ne_nil _ Nne] at hc
        exact wordChar_not_pySpace (Nhead c hc)
      have h4 : matchName (e.task.data ++ (List.replicate (20 - e.task.length + 3) ' ' ++
          ((fmt_time e.start).data ++ (List.replicate 3 ' ' ++ (['-', '-'] ++ ['\n']))))) =
          some (e.task.data, List.replicate (20 - e.task.length + 3) ' ' ++
            ((fmt_time e.start).data ++ (List.replicate 3 ' ' ++ (['-', '-'] ++ ['\n'])))) :=
        matchName_good Nlen Ncore _ (blockedTail_spaces (by omega) _)
      have h5 : wsCount (List.replicate (20 - e.task.length + 3) ' ' ++
          ((fmt_time e.start).data ++ (List.replicate 3 ' ' ++ (['-', '-'] ++ ['\n'])))) =
          20 - e.task.length + 3 := by
        apply wsCount_replicate
        intro c hc
        obtain ⟨r, hr⟩ := fmt_time_head e.start
        rw [List.head?_append_of_ne_nil _ (by rw [hr]; simp)] at hc
        rw [hr] at hc
        cases hc
        exact isDigit_not_pySpace (digitChar_isDigit (Nat.mod_lt _ (by omega)))
      have h6 := matchDate_fmt hsv (List.replicate 3 ' ' ++ (['-', '-'] ++ ['\n']))
      have h7 : wsCount (List.replicate 3 ' ' ++ (['-', '-'] ++ ['\n'])) = 3 := by
        apply wsCount_replicate
        intro c hc
        cases hc
        decide
      simp only [hscanA, h2, drop_replicate, h4, h5, hkcond, if_false, h6, h7, hk2cond,
        hpt, mk_data]
      show Except.ok ⟨e.task, e.start, none⟩ = Except.ok e
      rw [← hstop]
  | some en =>
      have hev' : en.Valid := by rw [hstop] at hev; exact hev
      have hlt : DateTime.lt en e.start = false := by
        have : (0 : Int) ≤ (en.toSecs : Int) - (e.start.toSecs : Int) := by
          have := hd0
          unfold Entry.timeSecs at this
          rw [hstop] at this
          exact this
        simp only [DateTime.lt]
        simp only [decide_eq_false_iff_not]
        omega
      have hpten : parse_time (fmt_time en).data now = .ok en := parse_time_fmt0 hev' now
      have hline : (e.toLine now).data =
          (fmt_delta (e.timeSecs now)).data ++ (List.replicate 3 ' ' ++
            (e.task.data ++ (List.replicate (20 - e.task.length + 3) ' ' ++
              ((fmt_time e.start).data ++ (List.replicate 3 ' ' ++
                (fmt_time en).data))))) := by
        unfold Entry.toLine
        rw [hstop]
        rw [hjoin, hpadname]
        rw [List.replicate_add]
        simp [List.append_assoc]
      rw [hline]
      simp only [List.append_assoc]
      unfold Entry.from_string
      have h2 : wsCount (List.replicate 3 ' ' ++ (e.task.data ++
          (List.replicate (20 - e.task.length + 3) ' ' ++ ((fmt_time e.start).data ++
            (List.replicate 3 ' ' ++ ((fmt_time en).data ++ ['\n'])))))) = 3 := by
        apply wsCount_replicate
        intro c hc
        rw [List.head?_append_of_ne_nil _ Nne] at hc
        exact wordChar_not_pySpace (Nhead c hc)
      have h4 : matchName (e.task.data ++ (List.replicate (20 - e.task.length + 3) ' ' ++
          ((fmt_time e.start).data ++ (List.replicate 3 ' ' ++
            ((fmt_time en).data ++ ['\n']))))) =
          some (e.task.data, List.replicate (20 - e.task.length + 3) ' ' ++
            ((fmt_time e.start).data ++ (List.replicate 3 ' ' ++
              ((fmt_time en).data ++ ['\n'])))) :=
        matchName_good Nlen Ncore _ (blockedTail_spaces (by omega) _)
      have h5 : wsCount (List.replicate (20 - e.task.length + 3) ' ' ++
          ((fmt_time e.start).data ++ (List.replicate 3 ' ' ++
            ((fmt_time en).data ++ ['\n'])))) = 20 - e.task.length + 3 := by
        apply wsCount_replicate
        intro c hc
        obtain ⟨r, hr⟩ := fmt_time_head e.start
        rw [List.head?_append_of_ne_nil _ (by rw [hr]; simp)] at hc
        rw [hr] at hc
        cases hc
        exact isDigit_not_pySpace (digitChar_isDigit (Nat.mod_lt _ (by omega)))
      have h6 := matchDate_fmt hsv (List.replicate 3 ' ' ++ ((fmt_time en).data ++ ['\n']))
      have h7 : wsCount (List.replicate 3 ' ' ++ ((fmt_time en).data ++ ['\n'])) = 3 := by
        apply wsCount_replicate
        intro c hc
        obtain ⟨r, hr⟩ := fmt_time_head en
        rw [List.head?_append_of_ne_nil _ (by rw [hr]; simp)] at hc
        rw [hr] at hc
        cases hc
        exact isDigit_not_pySpace (digitChar_isDigit (Nat.mod_lt _ (by omega)))
      have hne2 : ¬ ((fmt_time en).data ++ ['\n']).take 2 = ['-', '-'] := by
        obtain ⟨r, hr⟩ := fmt_time_head en
        rw [hr, List.cons_append]
        intro hcon
        have hd := digitChar_isDigit (show en.month / 10 % 10 < 10 from Nat.mod_lt _ (by omega))
        have : digitChar (en.month / 10 % 10) = '-' := by
          have := congrArg List.head? hcon
          simpa using this
        rw [this] at hd
        cases hd
      have h8 := matchDate_fmt hev' ['\n']
      simp only [hscanA, h2, drop_replicate, h4, h5, hkcond, if_false, h6, h7, hk2cond,
        hne2, h8, Option.map_some', hpt, hpten, mk_data]
      show (if DateTime.lt en e.start = true then
              Except.error (Err.tymeError "Entry cannot end before it begins!")
            else Except.ok ⟨e.task, e.start, some en⟩) = Except.ok e
      rw [hlt]
      simp only [Bool.false_eq_true, if_false]
      rw [← hstop]

end Tyme

namespace Tyme

/-! ### Round-trip machinery: the rendered lines contain no newline, start
with a parenthesis, and are long enough to survive the blank-line filter -/

theorem pad2_no_nl (n : Nat) : ∀ c ∈ (pad2 n).data, c ≠ '\n' := by
  intro c hc hcon
  have h := pad2_all_digit n c hc
  rw [hcon] at h
  exact absurd h (by decide)

theorem fmt_time_no_nl (t : DateTime) : ∀ c ∈ (fmt_time t).data, c ≠ '\n' := by
  intro c hc
  rw [fmt_time_data] at hc
  simp only [List.mem_append, List.mem_cons] at hc
  rcases hc with hc | rfl | hc | rfl | hc | rfl | hc
  · exact pad2_no_nl _ c hc
  · decide
  · exact pad2_no_nl _ c hc
  · decide
  · exact pad2_no_nl _ c hc
  · decide
  · exact pad2_no_nl _ c hc

theorem fmt_delta_no_nl {n : Int} (h0 : 0 ≤ n) (h1 : n < 360000) :
    ∀ c ∈ (fmt_delta n).data, c ≠ '\n' := by
  obtain ⟨hh, mm, _, _, hA⟩ := fmt_delta_data h0 h1
  intro c hc
  rw [hA] at hc
  simp only [List.mem_append, List.mem_cons, List.mem_singleton] at hc
  rcases hc with rfl | hc | rfl | hc | rfl | hc
  · decide
  · exact pad2_no_nl _ c hc
  · decide
  · exact pad2_no_nl _ c hc
  · decide
  · cases hc

theorem replicate_space_no_nl (k : Nat) : ∀ c ∈ List.replicate k ' ', c ≠ '\n' := by
  intro c hc
  rw [List.eq_of_mem_replicate hc]
  decide

theorem goodName_no_nl {s : String} (h : goodName s = true) : ∀ c ∈ s.data, c ≠ '\n' := by
  obtain ⟨_, _, _, _, _, hch⟩ := goodName_facts h
  intro c hc hcon
  subst hcon
  rcases hch '\n' hc with hw | hs
  · exact absurd hw (by decide)
  · exact absurd hs (by decide)

theorem tags_join_no_nl {tags : List String} (h : ∀ tg ∈ tags, goodTag tg = true) :
    ∀ c ∈ (pyJoin ", " tags).data, c ≠ '\n' := by
  cases tags with
  | nil => intro c hc; cases hc
  | cons t r =>
      intro c hc hcon
      obtain ⟨_, hall, _, _⟩ := pyJoin_tags_facts h (by simp)
      have h2 := hall c hc
      rw [hcon] at h2
      exact absurd h2 (by decide)

theorem mem_stripRight {c : Char} {l : List Char} (h : c ∈ stripRight l) : c ∈ l := by
  unfold stripRight at h
  rw [List.mem_reverse] at h
  have h2 := (List.dropWhile_sublist isPySpace).subset h
  rwa [List.mem_reverse] at h2

theorem mem_stripChars {c : Char} {l : List Char} (h : c ∈ stripChars l) : c ∈ l := by
  unfold stripChars at h
  exact (List.dropWhile_sublist isPySpace).subset (mem_stripRight h)

theorem padRight_data (w : Nat) (s : String) :
    (padRight w s).data = s.data ++ List.replicate (w - s.length) ' ' := by
  unfold padRight
  rw [String.data_append, data_mk]

theorem to_string_data (t : Task) (s : TymeSheet) (now : DateTime) :
    (t.to_string s now).data =
      stripChars ((fmt_delta (t.timeSecs s now)).data ++ (List.replicate 3 ' ' ++
        ((padRight 20 t.name).data ++ (List.replicate 3 ' ' ++
          ((padRight 11 (match t.deadline with | some d => fmt_time d | none => "")).data ++
            (List.replicate 3 ' ' ++ (pyJoin ", " t.tags).data)))))) := by
  unfold Task.to_string pyStrip
  rw [data_mk]
  congr 1
  have hsp3 : ("   " : String).data = List.replicate 3 ' ' := rfl
  simp [pyJoin, String.data_append, hsp3]

theorem toLine_data (e : Entry) (now : DateTime) :
    (e.toLine now).data =
      (fmt_delta (e.timeSecs now)).data ++ (List.replicate 3 ' ' ++
        ((padRight 20 e.task).data ++ (List.replicate 3 ' ' ++
          ((fmt_time e.start).data ++ (List.replicate 3 ' ' ++
            (match e.stop with | none => "--" | some en => fmt_time en).data))))) := by
  unfold Entry.toLine
  have hsp3 : ("   " : String).data = List.replicate 3 ' ' := rfl
  simp [pyJoin, String.data_append, hsp3]

theorem stripChars_head2 {c1 c2 : Char} (h1 : isPySpace c1 = false) (h2 : isPySpace c2 = false)
    (r : List Char) : ∃ q, stripChars (c1 :: c2 :: r) = c1 :: c2 :: q := by
  rw [stripChars_head_not h1]
  rw [show c1 :: c2 :: r = [c1, c2] ++ r from rfl, stripRight_append]
  by_cases hr : stripRight r = []
  · rw [if_pos hr]
    exact ⟨[], @stripRight_last_not [c1] c2 h2⟩
  · rw [if_neg hr]
    exact ⟨stripRight r, rfl⟩

theorem task_line_facts {t : Task} {s : TymeSheet} {now : DateTime}
    (hg : goodName t.name = true)
    (htags : ∀ tg ∈ t.tags, goodTag tg = true)
    (hd0 : 0 ≤ t.timeSecs s now) (hd1 : t.timeSecs s now < 360000) :
    (∃ r, (t.to_string s now).data = '(' :: r) ∧ 2 ≤ (t.to_string s now).data.length ∧
      ∀ c ∈ (t.to_string s now).data, c ≠ '\n' := by
  obtain ⟨hh, mm, hh1, mm1, hA⟩ := fmt_delta_data hd0 hd1
  have hA2 : (fmt_delta (t.timeSecs s now)).data =
      '(' :: digitChar (hh / 10 % 10) :: (digitChar (hh % 10) :: (':' ::
        ((pad2 mm).data ++ [')']))) := by
    rw [hA, pad2_data]
    simp
  have hhead2 : ∀ X, ∃ q,
      stripChars ((fmt_delta (t.timeSecs s now)).data ++ X) =
        '(' :: digitChar (hh / 10 % 10) :: q := by
    intro X
    rw [hA2]
    rw [List.cons_append, List.cons_append]
    exact stripChars_head2 (by decide)
      (isDigit_not_pySpace (digitChar_isDigit (Nat.mod_lt _ (by omega)))) _
  obtain ⟨q, hq⟩ := hhead2 (List.replicate 3 ' ' ++
    ((padRight 20 t.name).data ++ (List.replicate 3 ' ' ++
      ((padRight 11 (match t.deadline with | some d => fmt_time d | none => "")).data ++
        (List.replicate 3 ' ' ++ (pyJoin ", " t.tags).data)))))
  have hdata := to_string_data t s now
  rw [hq] at hdata
  refine ⟨⟨_, hdata⟩, by rw [hdata]; simp, ?_⟩
  intro c hc
  rw [to_string_data] at hc
  have hc2 := mem_stripChars hc
  simp only [List.mem_append] at hc2
  rcases hc2 with hc2 | hc2 | hc2 | hc2 | hc2 | hc2 | hc2
  · exact fmt_delta_no_nl hd0 hd1 c hc2
  · exact replicate_space_no_nl 3 c hc2
  · rw [padRight_data] at hc2
    rcases List.mem_append.mp hc2 with hc3 | hc3
    · exact goodName_no_nl hg c hc3
    · exact replicate_space_no_nl _ c hc3
  · exact replicate_space_no_nl 3 c hc2
  · rw [padRight_data] at hc2
    rcases List.mem_append.mp hc2 with hc3 | hc3
    · cases hdl : t.deadline with
      | none => rw [hdl] at hc3; cases hc3
      | some d => rw [hdl] at hc3; exact fmt_time_no_nl d c hc3
    · exact replicate_space_no_nl _ c hc3
  · exact replicate_space_no_nl 3 c hc2
  · exact tags_join_no_nl htags c hc2

theorem entry_line_facts {e : Entry} {now : DateTime}
    (hg : goodName e.task = true)
    (hd0 : 0 ≤ e.timeSecs now) (hd1 : e.timeSecs now < 360000) :
    (∃ r, (e.toLine now).data = '(' :: r) ∧ 2 ≤ (e.toLine now).data.length ∧
      ∀ c ∈ (e.toLine now).data, c ≠ '\n' := by
  obtain ⟨hh, mm, hh1, mm1, hA⟩ := fmt_delta_data hd0 hd1
  have hdata := toLine_data e now
  rw [hA] at hdata
  refine ⟨⟨_, by rw [hdata]; rw [List.cons_append]⟩, by rw [hdata]; simp; omega, ?_⟩
  intro c hc
  rw [toLine_data] at hc
  simp only [List.mem_append] at hc
  rcases hc with hc2 | hc2 | hc2 | hc2 | hc2 | hc2 | hc2
  · exact fmt_delta_no_nl hd0 hd1 c hc2
  · exact replicate_space_no_nl 3 c hc2
  · rw [padRight_data] at hc2
    rcases List.mem_append.mp hc2 with hc3 | hc3
    · exact goodName_no_nl hg c hc3
    · exact replicate_space_no_nl _ c hc3
  · exact replicate_space_no_nl 3 c hc2
  · exact fmt_time_no_nl e.start c hc2
  · exact replicate_space_no_nl 3 c hc2
  · cases hstop : e.stop with
    | none =>
        rw [hstop] at hc2
        intro hcon
        rw [hcon] at hc2
        exact absurd hc2 (by decide)
    | some en =>
        rw [hstop] at hc2
        exact fmt_time_no_nl en c hc2

theorem breakHeader_lparen (w : String) (r : List Char) : breakHeader w ('(' :: r) = false := by
  simp [breakHeader]

/-! ### Round-trip machinery: document assembly -/

theorem pythonLines_nl (cs : List Char) : pythonLines ('\n' :: cs) = ['\n'] :: pythonLines cs := by
  conv_lhs => rw [pythonLines.eq_def]
  simp

theorem pythonLines_cons_ne {c : Char} (hc : c ≠ '\n') (cs : List Char) :
    pythonLines (c :: cs) =
      match pythonLines cs with
      | [] => [[c]]
      | l :: ls => (c :: l) :: ls := by
  conv_lhs => rw [pythonLines.eq_def]
  simp [hc]

theorem pythonLines_line {l : List Char} (h : ∀ c ∈ l, c ≠ '\n') (rest : List Char) :
    pythonLines (l ++ '\n' :: rest) = (l ++ ['\n']) :: pythonLines rest := by
  induction l with
  | nil =>
      rw [List.nil_append, pythonLines_nl, List.nil_append]
  | cons c cs ih =>
      rw [List.cons_append, pythonLines_cons_ne (h c (by simp)),
        ih (fun d hd => h d (by simp [hd]))]
      rfl

theorem pyJoin_nl_data (ss : List String) :
    (pyJoin "\n" (ss ++ [""])).data = ss.foldr (fun s acc => s.data ++ '\n' :: acc) [] := by
  induction ss with
  | nil => rfl
  | cons s rest ih =>
      cases rest with
      | nil =>
          show (s ++ "\n" ++ "").data = s.data ++ '\n' :: []
          simp [String.data_append]
      | cons t r =>
          show (s ++ "\n" ++ pyJoin "\n" ((t :: r) ++ [""])).data = _
          rw [List.foldr_cons]
          rw [← ih]
          simp [String.data_append]

theorem pythonLines_joined (ss : List String) (h : ∀ s ∈ ss, ∀ c ∈ s.data, c ≠ '\n') :
    pythonLines (ss.foldr (fun s acc => s.data ++ '\n' :: acc) []) =
      ss.map (fun s => s.data ++ ['\n']) := by
  induction ss with
  | nil => rfl
  | cons s rest ih =>
      rw [List.foldr_cons, List.map_cons, pythonLines_line (h s (by simp)),
        ih (fun s' hs' => h s' (by simp [hs']))]

theorem parseSection_cons_rec {α : Type} (f : List Char → Except Err α) (word : String)
    (must : Bool) {l : List Char} {a : α}
    (hbr : breakHeader word l = false) (hf : f l = .ok a) (ls : List (List Char)) :
    parseSection f word must (l :: ls) =
      match parseSection f word must ls with
      | .error e => .error e
      | .ok (as, r) => .ok (a :: as, r) := by
  conv_lhs => rw [parseSection.eq_def]
  simp only [hbr, Bool.false_eq_true, if_false, hf]

theorem parseSection_break {α : Type} (f : List Char → Except Err α) (word : String)
    (must : Bool) {l d : List Char} (hbr : breakHeader word l = true)
    (hdl : dashesLine d = true) (ls : List (List Char)) :
    parseSection f word must (l :: d :: ls) = .ok ([], ls) := by
  conv_lhs => rw [parseSection.eq_def]
  simp only [hbr, if_true, hdl]

theorem parseSection_run {α β : Type} (f : List Char → Except Err α) (word : String)
    (must : Bool) (g : β → List Char) (hmap : β → α) (items : List β)
    (hok : ∀ b ∈ items, f (g b) = .ok (hmap b) ∧ breakHeader word (g b) = false)
    {hd d : List Char} (rest : List (List Char))
    (hhd : breakHeader word hd = true) (hdl : dashesLine d = true) :
    parseSection f word must (items.map g ++ (hd :: d :: rest)) = .ok (items.map hmap, rest) := by
  induction items with
  | nil =>
      simpa using parseSection_break f word must hhd hdl rest
  | cons b r ih =>
      rw [List.map_cons, List.cons_append,
        parseSection_cons_rec f word must (hok b (by simp)).2 (hok b (by simp)).1 _,
        ih (fun b' hb' => hok b' (by simp [hb']))]
      rfl

theorem parseSection_final {α β : Type} (f : List Char → Except Err α) (word : String)
    (g : β → List Char) (hmap : β → α) (items : List β)
    (hok : ∀ b ∈ items, f (g b) = .ok (hmap b) ∧ breakHeader word (g b) = false) :
    parseSection f word false (items.map g) = .ok (items.map hmap, []) := by
  induction items with
  | nil => rfl
  | cons b r ih =>
      rw [List.map_cons,
        parseSection_cons_rec f word false (hok b (by simp)).2 (hok b (by simp)).1 _,
        ih (fun b' hb' => hok b' (by simp [hb']))]
      rfl

theorem odInsert_not_mem {d : List (String × Task)} {k : String} (v : Task)
    (h : odMem k d = false) : odInsert d k v = d ++ [(k, v)] := by
  unfold odInsert
  have h2 : d.any (fun p => p.1 == k) = false := h
  rw [h2]
  simp

theorem odFromTasks_foldl (ts : List Task) :
    ∀ acc : List (String × Task),
      (∀ t ∈ ts, odMem t.name acc = false) → (ts.map Task.name).Nodup →
      ts.foldl (fun d t => odInsert d t.name t) acc = acc ++ ts.map (fun t => (t.name, t)) := by
  induction ts with
  | nil => intro acc _ _; simp
  | cons t r ih =>
      intro acc hmem hnd
      rw [List.foldl_cons, odInsert_not_mem t (hmem t (by simp))]
      rw [List.map_cons] at hnd
      rw [ih (acc ++ [(t.name, t)]) ?_ (List.nodup_cons.mp hnd).2]
      · simp
      · intro u hu
        have h1 : odMem u.name acc = false := hmem u (by simp [hu])
        have h2 : u.name ≠ t.name := by
          intro hcon
          exact (List.nodup_cons.mp hnd).1 (hcon ▸ List.mem_map_of_mem Task.name hu)
        have h3 : odMem u.name (acc ++ [(t.name, t)]) =
            (odMem u.name acc || odMem u.name [(t.name, t)]) := by
          unfold odMem
          rw [List.any_append]
        rw [h3, h1]
        simp [odMem]
        exact fun hcon => h2 hcon.symm

theorem odFromTasks_map (l : List (String × Task))
    (hk : ∀ p ∈ l, p.1 = p.2.name) (hnd : (l.map Prod.fst).Nodup) :
    odFromTasks (l.map Prod.snd) = l := by
  unfold odFromTasks
  have hnames : (l.map Prod.snd).map Task.name = l.map Prod.fst := by
    rw [List.map_map]
    exact List.map_congr_left (fun p hp => (hk p hp).symm)
  rw [odFromTasks_foldl (l.map Prod.snd) [] (fun t _ => rfl) (by rw [hnames]; exact hnd)]
  rw [List.nil_append, List.map_map]
  have hmaps : l.map ((fun t : Task => ((t.name : String), t)) ∘ Prod.snd) = l.map id :=
    List.map_congr_left (fun p hp => by
      show ((p.2.name : String), p.2) = id p
      rw [← hk p hp]
      exact Prod.mk.eta)
  rw [hmaps, List.map_id]

theorem validate_of_closed {s : TymeSheet} (h : ∀ e ∈ s.time.dropLast, e.stop ≠ none) :
    s._validate = .ok () := by
  unfold TymeSheet._validate
  have hall : s.time.dropLast.all (fun e => e.stop.isSome) = true := by
    rw [List.all_eq_true]
    intro e he
    cases hs : e.stop with
    | none => exact absurd hs (h e he)
    | some d => rfl
  rw [hall]
  simp

end Tyme

namespace Tyme

/-- C1, amended: the serialize-parse round trip `from_file (str sheet) = sheet`
holds for sheets that are grammar-conforming in the sense of `RoundTripReady`
(keys equal to task names and distinct, names and tags matching the line
grammar, valid minute-granularity timestamps, all durations and per-task
totals in `[0, 100h)`, every non-final time entry closed); the cited global
invariants alone do not suffice (see the counterexample theorem). -/
theorem c1_round_trip (s : TymeSheet) (now : DateTime) (h : RoundTripReady s now) :
    from_file (s.toStr now) now = .ok s := by
  obtain ⟨hk1, hk2, hnd1, hnd2, hgood, hdurT, hegood, hedur, hclosed⟩ := h
  have htodoF : ∀ p ∈ s.todo, (∃ r, (p.2.to_string s now).data = '(' :: r) ∧
      2 ≤ (p.2.to_string s now).data.length ∧ ∀ c ∈ (p.2.to_string s now).data, c ≠ '\n' :=
    fun p hp =>
      task_line_facts (hgood p (List.mem_append_left _ hp)).1
        (hgood p (List.mem_append_left _ hp)).2.1
        (hdurT p (List.mem_append_left _ hp)).1 (hdurT p (List.mem_append_left _ hp)).2
  have hdoneF : ∀ p ∈ s.done, (∃ r, (p.2.to_string s now).data = '(' :: r) ∧
      2 ≤ (p.2.to_string s now).data.length ∧ ∀ c ∈ (p.2.to_string s now).data, c ≠ '\n' :=
    fun p hp =>
      task_line_facts (hgood p (List.mem_append_right _ hp)).1
        (hgood p (List.mem_append_right _ hp)).2.1
        (hdurT p (List.mem_append_right _ hp)).1 (hdurT p (List.mem_append_right _ hp)).2
  have htimeF : ∀ e ∈ s.time, (∃ r, (e.toLine now).data = '(' :: r) ∧
      2 ≤ (e.toLine now).data.length ∧ ∀ c ∈ (e.toLine now).data, c ≠ '\n' :=
    fun e he => entry_line_facts (hegood e he).1 (hedur e he).1 (hedur e he).2
  have hdoc : (s.toStr now).data =
      (center 70 "Todo" :: String.mk (List.replicate 70 '-') ::
        (s.todo.map (fun p => p.2.to_string s now) ++ ("" :: center 70 "Time" ::
          String.mk (List.replicate 70 '-') :: (s.time.map (fun e => e.toLine now) ++
            ("" :: center 70 "Done" :: String.mk (List.replicate 70 '-') ::
              s.done.map (fun p => p.2.to_string s now)))))).foldr
        (fun x acc => x.data ++ '\n' :: acc) [] := by
    rw [show s.toStr now = pyJoin "\n"
        ((center 70 "Todo" :: String.mk (List.replicate 70 '-') ::
          (s.todo.map (fun p => p.2.to_string s now) ++ ("" :: center 70 "Time" ::
            String.mk (List.replicate 70 '-') :: (s.time.map (fun e => e.toLine now) ++
              ("" :: center 70 "Done" :: String.mk (List.replicate 70 '-') ::
                s.done.map (fun p => p.2.to_string s now)))))) ++ [""]) from by
      unfold TymeSheet.toStr
      congr 1
      simp [sectionLines]]
    exact pyJoin_nl_data _
  have hlines : pythonLines (s.toStr now).data =
      (center 70 "Todo" :: String.mk (List.replicate 70 '-') ::
        (s.todo.map (fun p => p.2.to_string s now) ++ ("" :: center 70 "Time" ::
          String.mk (List.replicate 70 '-') :: (s.time.map (fun e => e.toLine now) ++
            ("" :: center 70 "Done" :: String.mk (List.replicate 70 '-') ::
              s.done.map (fun p => p.2.to_string s now)))))).map
        (fun x => x.data ++ ['\n']) := by
    rw [hdoc]
    apply pythonLines_joined
    intro x hx
    simp only [List.mem_cons, List.mem_append, List.mem_map] at hx
    rcases hx with rfl | rfl | ⟨p, hp, rfl⟩ | rfl | rfl | rfl | ⟨e, he, rfl⟩ | rfl | rfl |
      rfl | ⟨p, hp, rfl⟩
    · decide
    · decide
    · exact (htodoF p hp).2.2
    · decide
    · decide
    · decide
    · exact (htimeF e he).2.2
    · decide
    · decide
    · decide
    · exact (hdoneF p hp).2.2
  have hfT1 : (s.todo.map (fun p => (p.2.to_string s now).data ++ ['\n'])).filter
      (fun l => 2 < l.length) =
      s.todo.map (fun p => (p.2.to_string s now).data ++ ['\n']) := by
    rw [List.filter_eq_self]
    intro a ha
    obtain ⟨p, hp, rfl⟩ := List.mem_map.mp ha
    have hlen := (htodoF p hp).2.1
    simp only [decide_eq_true_eq, List.length_append, List.length_cons, List.length_nil]
    omega
  have hfT2 : (s.time.map (fun e => (e.toLine now).data ++ ['\n'])).filter
      (fun l => 2 < l.length) =
      s.time.map (fun e => (e.toLine now).data ++ ['\n']) := by
    rw [List.filter_eq_self]
    intro a ha
    obtain ⟨e, he, rfl⟩ := List.mem_map.mp ha
    have hlen := (htimeF e he).2.1
    simp only [decide_eq_true_eq, List.length_append, List.length_cons, List.length_nil]
    omega
  have hfT3 : (s.done.map (fun p => (p.2.to_string s now).data ++ ['\n'])).filter
      (fun l => 2 < l.length) =
      s.done.map (fun p => (p.2.to_string s now).data ++ ['\n']) := by
    rw [List.filter_eq_self]
    intro a ha
    obtain ⟨p, hp, rfl⟩ := List.mem_map.mp ha
    have hlen := (hdoneF p hp).2.1
    simp only [decide_eq_true_eq, List.length_append, List.length_cons, List.length_nil]
    omega
  have hfilter : ((center 70 "Todo" :: String.mk (List.replicate 70 '-') ::
      (s.todo.map (fun p => p.2.to_string s now) ++ ("" :: center 70 "Time" ::
        String.mk (List.replicate 70 '-') :: (s.time.map (fun e => e.toLine now) ++
          ("" :: center 70 "Done" :: String.mk (List.replicate 70 '-') ::
            s.done.map (fun p => p.2.to_string s now)))))).map
        (fun x => x.data ++ ['\n'])).filter (fun l => 2 < l.length) =
      ((center 70 "Todo").data ++ ['\n']) ::
        ((String.mk (List.replicate 70 '-')).data ++ ['\n']) ::
        (s.todo.map (fun p => (p.2.to_string s now).data ++ ['\n']) ++
          (((center 70 "Time").data ++ ['\n']) ::
            ((String.mk (List.replicate 70 '-')).data ++ ['\n']) ::
            (s.time.map (fun e => (e.toLine now).data ++ ['\n']) ++
              (((center 70 "Done").data ++ ['\n']) ::
                ((String.mk (List.replicate 70 '-')).data ++ ['\n']) ::
                s.done.map (fun p => (p.2.to_string s now).data ++ ['\n']))))) := by
    simp only [List.map_cons, List.map_append, List.map_map, Function.comp_def]
    rw [List.filter_cons, if_pos (by decide), List.filter_cons, if_pos (by decide),
      List.filter_append, hfT1, List.filter_cons, if_neg (by decide),
      List.filter_cons, if_pos (by decide), List.filter_cons, if_pos (by decide),
      List.filter_append, hfT2, List.filter_cons, if_neg (by decide),
      List.filter_cons, if_pos (by decide), List.filter_cons, if_pos (by decide), hfT3]
  have hbT : breakHeader "Todo" ((center 70 "Todo").data ++ ['\n']) = true := by decide
  have hbTi : breakHeader "Time" ((center 70 "Time").data ++ ['\n']) = true := by decide
  have hbD : breakHeader "Done" ((center 70 "Done").data ++ ['\n']) = true := by decide
  have hdS : dashesLine ((String.mk (List.replicate 70 '-')).data ++ ['\n']) = true := by decide
  have hok1 : ∀ p ∈ s.todo,
      (fun l => Task.from_string l now)
        ((fun p : String × Task => (p.2.to_string s now).data ++ ['\n']) p) =
        .ok (Prod.snd p) ∧
      breakHeader "Time"
        ((fun p : String × Task => (p.2.to_string s now).data ++ ['\n']) p) = false := by
    intro p hp
    refine ⟨task_round_trip (hgood p (List.mem_append_left _ hp)).1
      (hgood p (List.mem_append_left _ hp)).2.1 (hgood p (List.mem_append_left _ hp)).2.2
      (hdurT p (List.mem_append_left _ hp)).1 (hdurT p (List.mem_append_left _ hp)).2, ?_⟩
    obtain ⟨r, hr⟩ := (htodoF p hp).1
    show breakHeader "Time" ((p.2.to_string s now).data ++ ['\n']) = false
    rw [hr, List.cons_append]
    exact breakHeader_lparen _ _
  have hok2 : ∀ e ∈ s.time,
      (fun l => Entry.from_string l now)
        ((fun e : Entry => (e.toLine now).data ++ ['\n']) e) = .ok (id e) ∧
      breakHeader "Done" ((fun e : Entry => (e.toLine now).data ++ ['\n']) e) = false := by
    intro e he
    refine ⟨entry_round_trip (hegood e he).1 (hegood e he).2.1 (hegood e he).2.2
      (hedur e he).1 (hedur e he).2, ?_⟩
    obtain ⟨r, hr⟩ := (htimeF e he).1
    show breakHeader "Done" ((e.toLine now).data ++ ['\n']) = false
    rw [hr, List.cons_append]
    exact breakHeader_lparen _ _
  have hok3 : ∀ p ∈ s.done,
      (fun l => Task.from_string l now)
        ((fun p : String × Task => (p.2.to_string s now).data ++ ['\n']) p) =
        .ok (Prod.snd p) ∧
      breakHeader "None"
        ((fun p : String × Task => (p.2.to_string s now).data ++ ['\n']) p) = false := by
    intro p hp
    refine ⟨task_round_trip (hgood p (List.mem_append_right _ hp)).1
      (hgood p (List.mem_append_right _ hp)).2.1 (hgood p (List.mem_append_right _ hp)).2.2
      (hdurT p (List.mem_append_right _ hp)).1 (hdurT p (List.mem_append_right _ hp)).2, ?_⟩
    obtain ⟨r, hr⟩ := (hdoneF p hp).1
    show breakHeader "None" ((p.2.to_string s now).data ++ ['\n']) = false
    rw [hr, List.cons_append]
    exact breakHeader_lparen _ _
  have hsec1 := parseSection_run (fun l => Task.from_string l now) "Time" true
    (fun p : String × Task => (p.2.to_string s now).data ++ ['\n']) Prod.snd s.todo hok1
    (s.time.map (fun e => (e.toLine now).data ++ ['\n']) ++
      (((center 70 "Done").data ++ ['\n']) ::
        ((String.mk (List.replicate 70 '-')).data ++ ['\n']) ::
        s.done.map (fun p => (p.2.to_string s now).data ++ ['\n'])))
    hbTi hdS
  have hsec2 := parseSection_run (fun l => Entry.from_string l now) "Done" true
    (fun e : Entry => (e.toLine now).data ++ ['\n']) id s.time hok2
    (s.done.map (fun p => (p.2.to_string s now).data ++ ['\n'])) hbD hdS
  have hsec3 := parseSection_final (fun l => Task.from_string l now) "None"
    (fun p : String × Task => (p.2.to_string s now).data ++ ['\n']) Prod.snd s.done hok3
  have hps : parseStructure (s.toStr now) now = .ok s := by
    unfold parseStructure
    rw [hlines, hfilter]
    simp only [hbT, Bool.not_true, Bool.false_eq_true, if_false, hdS,
      hsec1, hsec2, hsec3, List.map_id]
    rw [odFromTasks_map s.todo hk1 hnd1, odFromTasks_map s.done hk2 hnd2]
  unfold from_file
  rw [hps]
  simp only [validate_of_closed hclosed]

theorem c1_round_trip_witness :
    RoundTripReady ⟨[("ab", ⟨"ab", [], none⟩)], [], []⟩ ⟨1, 1, 0, 0, 0⟩ ∧
      from_file (TymeSheet.toStr ⟨[("ab", ⟨"ab", [], none⟩)], [], []⟩ ⟨1, 1, 0, 0, 0⟩)
          ⟨1, 1, 0, 0, 0⟩ =
        .ok ⟨[("ab", ⟨"ab", [], none⟩)], [], []⟩ :=
  ⟨by decide, c1_round_trip ⟨[("ab", ⟨"ab", [], none⟩)], [], []⟩ ⟨1, 1, 0, 0, 0⟩ (by decide)⟩

end Tyme
